import Mathlib

/-!
# ReAct agent: action protocol and control loop

A shallow embedding of `react_agent.go` (and the `write_to_file` handler of
`tools.go`), with theorems about the action parser, the tag extractor, the
argument validator and the conversation loop.

Go strings are modelled as lists of Unicode scalar values (`List Char`), i.e.
as valid UTF-8 text.  All byte offsets the source computes (`strings.Index`
of `"("`, `strings.LastIndex` of `")"`) fall on single-byte characters, so
slicing by character position agrees with slicing by byte offset.
-/

namespace ReAct

/-- Go `string`, as a list of Unicode scalar values. -/
abbrev Str := List Char

/-! ## Models of the Go standard-library functions used by the source -/

/-- Go `unicode.IsSpace`: the Latin-1 spaces `\t \n \v \f \r ' ' U+0085 U+00A0`
and the other code points with the `White_Space` property. -/
def isSpace (c : Char) : Bool :=
  let n := c.toNat
  n == 0x09 || n == 0x0A || n == 0x0B || n == 0x0C || n == 0x0D || n == 0x20 ||
  n == 0x85 || n == 0xA0 || n == 0x1680 || (0x2000 ≤ n && n ≤ 0x200A) ||
  n == 0x2028 || n == 0x2029 || n == 0x202F || n == 0x205F || n == 0x3000

/-- Go `strings.TrimSpace`: drop leading and trailing `unicode.IsSpace` runes. -/
def trimSpace (s : Str) : Str :=
  List.rdropWhile isSpace (List.dropWhile isSpace s)

/-- Go `strings.Index(s, string(c))` for a one-character needle; `none` is `-1`. -/
def indexChar (c : Char) : Str → Option Nat
  | [] => none
  | x :: xs => if x = c then some 0 else (indexChar c xs).map (· + 1)

/-- Go `strings.LastIndex(s, string(c))` for a one-character needle; `none` is `-1`. -/
def lastIndexChar (c : Char) (s : Str) : Option Nat :=
  (indexChar c s.reverse).map (fun i => s.length - 1 - i)

/-- Go slice expression `s[lo:hi]`. -/
def slice (s : Str) (lo hi : Nat) : Str :=
  (s.drop lo).take (hi - lo)

/-! ### `encoding/json`

The decoder is modelled as a recursive-descent reader over the RFC 8259
grammar with the particulars of Go's scanner: whitespace is space, tab, CR and
LF; a string may hold any character from U+0020 up except `"` and `\`; the
escapes are `\" \\ \/ \b \f \n \r \t \uXXXX`; nesting deeper than 10000 is an
error.  Every reader returns the text left after what it consumed. -/

/-- JSON insignificant whitespace (`isSpace` of Go's `scanner.go`). -/
def isJsonSpace (c : Char) : Bool :=
  c == ' ' || c == '\t' || c == '\r' || c == '\n'

/-- Skip JSON whitespace. -/
def skipWS (s : Str) : Str := List.dropWhile isJsonSpace s

/-- Value of a hexadecimal digit (`getu4` of Go's `decode.go`). -/
def hexVal (c : Char) : Option Nat :=
  let n := c.toNat
  if 0x30 ≤ n ∧ n ≤ 0x39 then some (n - 0x30)
  else if 0x61 ≤ n ∧ n ≤ 0x66 then some (n - 0x61 + 10)
  else if 0x41 ≤ n ∧ n ≤ 0x46 then some (n - 0x41 + 10)
  else none

/-- Four hexadecimal digits read as a number. -/
def hex4 (a b c d : Char) : Option Nat :=
  match hexVal a, hexVal b, hexVal c, hexVal d with
  | some x, some y, some z, some w => some (((x * 16 + y) * 16 + z) * 16 + w)
  | _, _, _, _ => none

/-- The one-character escapes `\" \\ \/ \b \f \n \r \t` and what they stand for. -/
def simpleEscape (c : Char) : Option Char :=
  if c = '"' then some '"'
  else if c = '\\' then some '\\'
  else if c = '/' then some '/'
  else if c = 'b' then some (Char.ofNat 0x08)
  else if c = 'f' then some (Char.ofNat 0x0C)
  else if c = 'n' then some (Char.ofNat 0x0A)
  else if c = 'r' then some (Char.ofNat 0x0D)
  else if c = 't' then some (Char.ofNat 0x09)
  else none

/-- Scanner for the inside of a string literal, entered after the opening quote:
returns the text after the closing quote. -/
def scanString : Str → Option Str
  | [] => none
  | c :: r =>
    if c = '"' then some r
    else if c = '\\' then
      match r with
      | [] => none
      | e :: r1 =>
        if e = 'u' then
          match r1 with
          | a :: b :: x :: d :: r2 =>
            if (hex4 a b x d).isSome then scanString r2 else none
          | _ => none
        else if (simpleEscape e).isSome then scanString r1
        else none
    else if c.toNat < 0x20 then none
    else scanString r

/-- Is the character a decimal digit? -/
def isDigit (c : Char) : Bool := 0x30 ≤ c.toNat && c.toNat ≤ 0x39

/-- Drop a run of decimal digits. -/
def skipDigits (s : Str) : Str := List.dropWhile isDigit s

/-- At least one digit, then the rest of the digit run. -/
def scanDigits1 : Str → Option Str
  | [] => none
  | c :: r => if isDigit c then some (skipDigits r) else none

/-- Optional exponent part of a number. -/
def scanExp : Str → Option Str
  | [] => some []
  | c :: r =>
    if c = 'e' ∨ c = 'E' then
      match r with
      | [] => none
      | s :: r1 => if s = '+' ∨ s = '-' then scanDigits1 r1 else scanDigits1 (s :: r1)
    else some (c :: r)

/-- Optional fraction part of a number, then the exponent. -/
def scanFrac : Str → Option Str
  | [] => some []
  | c :: r =>
    if c = '.' then (scanDigits1 r).bind scanExp
    else scanExp (c :: r)

/-- Integer part of a number after the optional minus sign. -/
def scanInt : Str → Option Str
  | [] => none
  | c :: r =>
    if c = '0' then scanFrac r
    else if isDigit c then scanFrac (skipDigits r)
    else none

/-- Scanner for a number literal. -/
def scanNumber : Str → Option Str
  | [] => none
  | c :: r => if c = '-' then scanInt r else scanInt (c :: r)

/-- Remove a fixed word from the front of the text. -/
def stripWord (w s : Str) : Option Str :=
  if w.isPrefixOf s then some (s.drop w.length) else none

/-- Maximal nesting of arrays and objects (`maxNestingDepth` of Go's scanner). -/
def maxNestingDepth : Nat := 10000

mutual
/-- Scanner for one JSON value starting at the first character of the text;
`depth` counts the arrays and objects already open. -/
def scanValue : Nat → Nat → Str → Option Str
  | 0, _, _ => none
  | _, _, [] => none
  | fuel + 1, depth, c :: r =>
    if c = '"' then scanString r
    else if c = '[' then
      if depth + 1 ≤ maxNestingDepth then
        match skipWS r with
        | [] => none
        | c1 :: r1 => if c1 = ']' then some r1 else scanElems fuel (depth + 1) (c1 :: r1)
      else none
    else if c = '{' then
      if depth + 1 ≤ maxNestingDepth then
        match skipWS r with
        | [] => none
        | c1 :: r1 => if c1 = '}' then some r1 else scanMembers fuel (depth + 1) (c1 :: r1)
      else none
    else if c = 't' then stripWord "true".toList (c :: r)
    else if c = 'f' then stripWord "false".toList (c :: r)
    else if c = 'n' then stripWord "null".toList (c :: r)
    else scanNumber (c :: r)
/-- Scanner for the elements of an array, entered at the first character of an
element: value, then `,` and more elements, or `]`. -/
def scanElems : Nat → Nat → Str → Option Str
  | 0, _, _ => none
  | fuel + 1, depth, s =>
    match scanValue fuel depth s with
    | none => none
    | some r =>
      match skipWS r with
      | [] => none
      | c :: r1 =>
        if c = ',' then scanElems fuel depth (skipWS r1)
        else if c = ']' then some r1
        else none
/-- Scanner for the members of an object, entered at the first character of a
key: string, `:`, value, then `,` and more members, or `}`. -/
def scanMembers : Nat → Nat → Str → Option Str
  | 0, _, _ => none
  | _, _, [] => none
  | fuel + 1, depth, q :: s =>
    if q = '"' then
      match scanString s with
      | none => none
      | some r =>
        match skipWS r with
        | [] => none
        | c :: r1 =>
          if c = ':' then
            match scanValue fuel depth (skipWS r1) with
            | none => none
            | some r2 =>
              match skipWS r2 with
              | [] => none
              | c2 :: r3 =>
                if c2 = ',' then scanMembers fuel depth (skipWS r3)
                else if c2 = '}' then some r3
                else none
          else none
    else none
end

/-- Is the number a UTF-16 surrogate code unit (`utf16.IsSurrogate`)? -/
def isSurrogate (u : Nat) : Bool := 0xD800 ≤ u && u < 0xE000

/-- Go `utf16.DecodeRune`: the code point of a surrogate pair, `none` where Go
returns U+FFFD for an invalid pair. -/
def decodeSurrogates (hi lo : Nat) : Option Nat :=
  if 0xD800 ≤ hi ∧ hi < 0xDC00 ∧ 0xDC00 ≤ lo ∧ lo < 0xE000 then
    some ((hi - 0xD800) * 1024 + (lo - 0xDC00) + 0x10000)
  else none

/-- Go `getu4`: the number of a `\uXXXX` escape at the front of the text. -/
def getu4 : Str → Option Nat
  | b :: u :: a1 :: a2 :: a3 :: a4 :: _ =>
    if b = '\\' ∧ u = 'u' then hex4 a1 a2 a3 a4 else none
  | _ => none

/-- One round of the loop of Go `unquote`: the character the front of the text
stands for, and the text after it.  A surrogate escape that is not the first
half of a valid pair becomes U+FFFD. -/
def unquoteStep : Str → Option (Char × Str)
  | [] => none
  | c :: r =>
    if c = '\\' then
      match r with
      | [] => none
      | e :: r1 =>
        if e = 'u' then
          match getu4 (c :: e :: r1) with
          | none => none
          | some u =>
            if isSurrogate u then
              match (getu4 (r1.drop 4)).bind (decodeSurrogates u) with
              | some v => some (Char.ofNat v, r1.drop 10)
              | none => some (Char.ofNat 0xFFFD, r1.drop 4)
            else some (Char.ofNat u, r1.drop 4)
        else
          match simpleEscape e with
          | some ch => some (ch, r1)
          | none => none
    else if c = '"' ∨ c.toNat < 0x20 then none
    else some (c, r)

/-- The loop of Go `unquote` over the inside of a literal. -/
def unquoteLoop : Nat → Str → Option Str
  | 0, _ => none
  | _ + 1, [] => some []
  | fuel + 1, c :: r =>
    match unquoteStep (c :: r) with
    | none => none
    | some (ch, rest) => (unquoteLoop fuel rest).map (ch :: ·)

/-- Go `unquote`: the text a string literal stands for; the literal must start
and end with a quote. -/
def unquote (lit : Str) : Option Str :=
  if 2 ≤ lit.length ∧ lit.head? = some '"' ∧ lit.getLast? = some '"' then
    unquoteLoop (lit.length) lit.tail.dropLast
  else none

/-- Errors of `json.Unmarshal`: a `SyntaxError`, or an `UnmarshalTypeError`
carrying the kind of JSON value found (`"number"`, `"bool"`, `"array"`,
`"object"`). -/
inductive JsonError where
  | invalid : JsonError
  | mismatch : Str → JsonError
  deriving DecidableEq, Repr

/-- Fuel that the value scanner cannot exhaust on a text: every two nested calls
consume a character. -/
def scanFuel (s : Str) : Nat := 2 * s.length + 2

/-- The exact text of the value the scanner consumed, given what it left. -/
def consumed (s rest : Str) : Str := s.take (s.length - rest.length)

/-- Elements of the outermost array as raw texts, entered at the first
character of an element; after the closing `]` only whitespace may follow. -/
def rawElems : Nat → Str → Option (List Str)
  | 0, _ => none
  | fuel + 1, s =>
    match scanValue (scanFuel s) 1 s with
    | none => none
    | some r =>
      match skipWS r with
      | [] => none
      | c :: r1 =>
        if c = ',' then (rawElems fuel (skipWS r1)).map (consumed s r :: ·)
        else if c = ']' then (if skipWS r1 = [] then some [consumed s r] else none)
        else none

/-- Go `json.Unmarshal(data, &raw)` for `raw []json.RawMessage`: the raw text
of every element of the array.  A top-level `null` leaves the slice empty; any
other non-array value is a type error. -/
def unmarshalRawArray (data : Str) : Except JsonError (List Str) :=
  match skipWS data with
  | [] => .error .invalid
  | c :: r =>
    if c = '[' then
      match skipWS r with
      | [] => .error .invalid
      | c1 :: r1 =>
        if c1 = ']' then (if skipWS r1 = [] then .ok [] else .error .invalid)
        else
          match rawElems (r.length + 1) (c1 :: r1) with
          | some items => .ok items
          | none => .error .invalid
    else
      match scanValue (scanFuel (c :: r)) 0 (c :: r) with
      | none => .error .invalid
      | some rest =>
        if skipWS rest = [] then
          (if c = 'n' then .ok []
           else if c = '"' then .error (.mismatch "string".toList)
           else if c = '{' then .error (.mismatch "object".toList)
           else if c = 't' ∨ c = 'f' then .error (.mismatch "bool".toList)
           else .error (.mismatch "number".toList))
        else .error .invalid

/-- Go `json.Unmarshal(item, &s)` for `s string` holding `""`: a string literal
is unquoted; `null` is accepted and leaves `s` as it was; a number, boolean,
array or object is a type error. -/
def unmarshalString (item : Str) : Except JsonError Str :=
  match skipWS item with
  | [] => .error .invalid
  | c :: r =>
    match scanValue (scanFuel (c :: r)) 0 (c :: r) with
    | none => .error .invalid
    | some rest =>
      if skipWS rest = [] then
        (if c = '"' then
           match unquote (consumed (c :: r) rest) with
           | some v => .ok v
           | none => .error .invalid
         else if c = 'n' then .ok []
         else if c = '[' then .error (.mismatch "array".toList)
         else if c = '{' then .error (.mismatch "object".toList)
         else if c = 't' ∨ c = 'f' then .error (.mismatch "bool".toList)
         else .error (.mismatch "number".toList))
      else .error .invalid

/-! ## The action parser (`react_agent.go`) -/

/-- Errors of `parseToolCall` and `parseJSONArguments`, one constructor per
message of the source. -/
inductive ParseError where
  /-- Message `action 内容为空`. -/
  | emptyAction : ParseError
  /-- Message `无法解析函数调用: %s`. -/
  | notACall : Str → ParseError
  /-- Message `缺少函数名: %s`. -/
  | missingName : Str → ParseError
  /-- Message `action 参数必须是合法的 JSON 字面量: %w`. -/
  | badJSON : JsonError → ParseError
  /-- Message `第 %d 个参数必须是字符串: %w`, with the 1-based position. -/
  | notAString : Nat → JsonError → ParseError
  deriving DecidableEq, Repr

/-- The loop `for i, item := range rawArgs` of `parseJSONArguments`; `i` is
the index of the first item of the list. -/
def decodeArgs : Nat → List Str → Except ParseError (List Str)
  | _, [] => .ok []
  | i, item :: items =>
    match unmarshalString item with
    | .error e => .error (.notAString (i + 1) e)
    | .ok v =>
      match decodeArgs (i + 1) items with
      | .error e => .error e
      | .ok vs => .ok (v :: vs)

/-- Source `parseJSONArguments`. -/
def parseJSONArguments (content : Str) : Except ParseError (List Str) :=
  if trimSpace content = [] then .ok []
  else
    match unmarshalRawArray ('[' :: content ++ [']']) with
    | .error e => .error (.badJSON e)
    | .ok rawArgs => decodeArgs 0 rawArgs

/-- Source `parseToolCall`. -/
def parseToolCall (payload0 : Str) : Except ParseError (Str × List Str) :=
  let payload := trimSpace payload0
  if payload = [] then .error .emptyAction
  else
    match indexChar '(' payload, lastIndexChar ')' payload with
    | some openParen, some closeParen =>
      if closeParen < openParen then .error (.notACall payload)
      else
        let name := trimSpace (slice payload 0 openParen)
        if name = [] then .error (.missingName payload)
        else
          let argsStr := trimSpace (slice payload (openParen + 1) closeParen)
          match parseJSONArguments argsStr with
          | .error e => .error e
          | .ok args => .ok (name, args)
    | _, _ => .error (.notACall payload)


/-! ### `regexp`

`extractTag` compiles the pattern `(?s)<tag>(.*?)</tag>`.  For a tag without
regular-expression metacharacters (letters and underscores) the pattern is the
literal `<tag>`, a lazy capture of any characters (line breaks included) and the
literal `</tag>`; `FindStringSubmatch` returns the leftmost match, and at that
start the first one a backtracking search finds, i.e. the shortest capture. -/

/-- The lazy `(.*?)` followed by the literal `cls`, anchored at the start of the
text: the shortest captured text. -/
def matchLazyUntil (cls : Str) : Str → Option Str
  | [] => if cls = [] then some [] else none
  | c :: s =>
    if cls.isPrefixOf (c :: s) then some []
    else (matchLazyUntil cls s).map (c :: ·)

/-- The pattern `opn(.*?)cls` anchored at the start of the text: the capture. -/
def matchAt (opn cls s : Str) : Option Str :=
  if opn.isPrefixOf s then matchLazyUntil cls (s.drop opn.length) else none

/-- Go `FindStringSubmatch` for `opn(.*?)cls`: the capture of the leftmost match. -/
def findSubmatch (opn cls : Str) : Str → Option Str
  | [] => matchAt opn cls []
  | c :: s =>
    match matchAt opn cls (c :: s) with
    | some g => some g
    | none => findSubmatch opn cls s

/-- The literal `<tag>`. -/
def openTag (tag : Str) : Str := '<' :: (tag ++ ['>'])

/-- The literal `</tag>`. -/
def closeTag (tag : Str) : Str := '<' :: '/' :: (tag ++ ['>'])

/-- A tag name made of letters and underscores, for which the pattern of
`extractTag` reads literally. -/
def tagOK (tag : Str) : Bool := tag.all (fun c => c.isAlpha || c == '_')

/-! ### `strings.ToLower`, `strings.EqualFold`, `strings.HasPrefix`, `strings.Contains`

The Unicode case tables are not part of the program; they are taken as
parameters.  On ASCII both functions are fixed by the Go source and do not
consult the tables. -/

/-- The Unicode case data the `strings` package consults for non-ASCII runes. -/
structure CaseTables where
  /-- Go `unicode.ToLower` on a rune from U+0080 up. -/
  lower : Char → Char
  /-- The general case of `strings.EqualFold` for two different runes `sr < tr`,
  `tr` from U+0080 up: does walking `unicode.SimpleFold` from `sr` reach `tr`? -/
  foldsTo : Char → Char → Bool

/-- Case tables with no non-ASCII case pairs, for evaluating examples on
ASCII text. -/
def asciiTables : CaseTables := ⟨id, fun _ _ => false⟩

/-- Lower case of one rune: `A`–`Z` by the ASCII rule, other ASCII unchanged,
the rest by the table. -/
def toLowerRune (U : CaseTables) (c : Char) : Char :=
  if c.toNat < 0x80 then
    (if 0x41 ≤ c.toNat ∧ c.toNat ≤ 0x5A then Char.ofNat (c.toNat + 0x20) else c)
  else U.lower c

/-- Go `strings.ToLower`. -/
def toLower (U : CaseTables) (s : Str) : Str := s.map (toLowerRune U)

/-- One round of the loop of `strings.EqualFold`: are two runes equal under
simple case folding? -/
def equalFoldRune (U : CaseTables) (a b : Char) : Bool :=
  if a = b then true
  else
    let sr := if b.toNat < a.toNat then b else a
    let tr := if b.toNat < a.toNat then a else b
    if tr.toNat < 0x80 then
      decide (0x41 ≤ sr.toNat ∧ sr.toNat ≤ 0x5A ∧ tr.toNat = sr.toNat + 0x20)
    else U.foldsTo sr tr

/-- Go `strings.EqualFold`. -/
def equalFold (U : CaseTables) : Str → Str → Bool
  | [], [] => true
  | a :: s, b :: t => equalFoldRune U a b && equalFold U s t
  | _, _ => false

/-! ## The tag extractor (`react_agent.go`) -/

/-- Source `extractTag`: the trimmed capture of the leftmost match of
`(?s)<tag>(.*?)</tag>` and `true`, or the empty string and `false`. -/
def extractTag (content tag : Str) : Str × Bool :=
  match findSubmatch (openTag tag) (closeTag tag) content with
  | none => ([], false)
  | some g => (trimSpace g, true)

/-! ## The argument validator (`react_agent.go`) -/

/-- The errors of `validateToolCall`, in the order of the checks. -/
inductive ValidationError where
  /-- `len(args) != 2`. -/
  | arity : ValidationError
  /-- The dsn is empty or is the placeholder. -/
  | placeholder : ValidationError
  /-- The dsn does not start with `dm://`. -/
  | scheme : ValidationError
  /-- The dsn has no `@`. -/
  | authority : ValidationError
  /-- The query is empty. -/
  | emptyQuery : ValidationError
  deriving DecidableEq, Repr

/-- The text of a validation error (`err.Error()`). -/
def ValidationError.message : ValidationError → Str
  | .arity =>
    "query_database 需要同时提供 dsn 与 sql 参数，例如 query_database(\"dm://用户名:密码@主机:端口/数据库\", \"SELECT ...\")。缺失信息时请先调用 request_user_input。".toList
  | .placeholder =>
    "缺少有效的 dsn。请先调用 request_user_input(\"请提供形如 dm://用户名:密码@主机:端口/数据库 的达梦连接串\") 获取真实连接串。".toList
  | .scheme =>
    "达梦连接串必须以 dm:// 开头，可提示用户按照 dm://用户名:密码@主机:端口/数据库 的格式提供。".toList
  | .authority =>
    "dsn 缺少主机信息，请确认包含 \"@主机:端口\" 段，并在必要时向用户询问完整连接串。".toList
  | .emptyQuery =>
    "SQL 语句不能为空。请先调用 request_user_input(\"需要执行的 SQL 是什么？\") 获取真实语句。".toList

/-- The tool name `query_database`. -/
def queryDatabase : Str := "query_database".toList

/-- The tool name `run_terminal_command`. -/
def runTerminalCommand : Str := "run_terminal_command".toList

/-- The placeholder `your_dsn_here`. -/
def dsnPlaceholder : Str := "your_dsn_here".toList

/-- The scheme `dm://`. -/
def dmScheme : Str := "dm://".toList

/-- Source `validateToolCall`; `none` is the `nil` error. -/
def validateToolCall (U : CaseTables) (toolName : Str) (args : List Str) :
    Option ValidationError :=
  if toolName = queryDatabase then
    match args with
    | [a0, a1] =>
      let dsn := trimSpace a0
      let query := trimSpace a1
      let lowerDSN := toLower U dsn
      if dsn = [] ∨ equalFold U dsn dsnPlaceholder = true then some .placeholder
      else if ¬ (dmScheme.isPrefixOf lowerDSN = true) then some .scheme
      else if ¬ ('@' ∈ dsn) then some .authority
      else if query = [] then some .emptyQuery
      else none
    | _ => some .arity
  else none

/-! ## The conversation loop (`react_agent.go`)

The model service, the tool handlers, the operator's input stream and the file
system are external: they are functions on an abstract world `W` that may
change it.  The logger only records text and is left out. -/

/-- Role of a chat message. -/
inductive Role where
  | system : Role
  | user : Role
  | assistant : Role
  deriving DecidableEq, Repr

/-- One message of the history. -/
structure Message where
  role : Role
  content : Str
  deriving DecidableEq, Repr

/-- Go `openai.SystemMessage`. -/
def systemMessage (s : Str) : Message := ⟨.system, s⟩

/-- Go `openai.UserMessage`. -/
def userMessage (s : Str) : Message := ⟨.user, s⟩

/-- Go `openai.AssistantMessage`. -/
def assistantMessage (s : Str) : Message := ⟨.assistant, s⟩

/-- A tool handler (`ToolFunc`): arguments to a result or an error text, with
its effect on the world. -/
abbrev Handler (W : Type) := List Str → W → Except Str Str × W

/-- The parts of a `ReActAgent` that `Run` uses. -/
structure Agent (W : Type) where
  /-- The case tables behind `strings.EqualFold` and `strings.ToLower`. -/
  tables : CaseTables
  /-- The result of `renderSystemPrompt` in a world. -/
  renderSystemPrompt : W → Str
  /-- `client.Chat.Completions.New`: the contents of the choices, or the
  error text. -/
  chat : List Message → W → Except Str (List Str) × W
  /-- The registry `tools`. -/
  tools : Str → Option (Handler W)
  /-- `reader.ReadString('\n')`: the line read, or the error text. -/
  readString : W → Except Str Str × W

/-- The errors `Run` returns. -/
inductive RunError where
  /-- The error of the completion call, passed on. -/
  | modelCall : Str → RunError
  /-- Message `模型返回为空`. -/
  | emptyReply : RunError
  /-- Message `模型输出缺少 <action>，无法继续执行`. -/
  | missingAction : RunError
  /-- The error of `parseToolCall`, passed on. -/
  | parse : ParseError → RunError
  /-- The error of reading the operator's answer, passed on. -/
  | readInput : Str → RunError
  /-- Message `操作被用户取消`. -/
  | cancelled : RunError
  deriving DecidableEq, Repr

/-- The state of one `Run`: the world, the round counter, the history, and a
record of what happened (not in the source): the histories sent to the model,
the replies received, and the handler invocations, oldest first. -/
structure RunState (W : Type) where
  world : W
  round : Nat
  messages : List Message
  calls : List (List Message)
  replies : List Str
  invoked : List (Str × List Str)

/-- Source `callModel`. -/
def callModel {W : Type} (a : Agent W) (messages : List Message) (w : W) :
    Except RunError Str × W :=
  match a.chat messages w with
  | (.error e, w1) => (.error (.modelCall e), w1)
  | (.ok [], w1) => (.error .emptyReply, w1)
  | (.ok (content :: _), w1) =>
    if content = [] then (.error .emptyReply, w1) else (.ok content, w1)

/-- The affirmative answer `y`. -/
def yes : Str := "y".toList

/-- Source `confirmInteractiveTool`. -/
def confirmInteractiveTool {W : Type} (a : Agent W) (w : W) : Except RunError Bool × W :=
  match a.readString w with
  | (.error e, w1) => (.error (.readInput e), w1)
  | (.ok input, w1) => (.ok (equalFold a.tables (trimSpace input) yes), w1)

/-- Text `未知工具: `. -/
def unknownToolText : Str := "未知工具: ".toList

/-- Text `工具执行错误: `. -/
def toolErrorText : Str := "工具执行错误: ".toList

/-- Text `action 参数校验失败: `. -/
def validationFailedText : Str := "action 参数校验失败: ".toList

/-- Source `executeTool`, recording the invocation of a handler. -/
def executeTool {W : Type} (a : Agent W) (name : Str) (args : List Str) (st : RunState W) :
    Str × RunState W :=
  match a.tools name with
  | none => (unknownToolText ++ name, st)
  | some handler =>
    match handler args st.world with
    | (.error e, w1) =>
      (toolErrorText ++ e, { st with world := w1, invoked := st.invoked ++ [(name, args)] })
    | (.ok result, w1) =>
      (result, { st with world := w1, invoked := st.invoked ++ [(name, args)] })

/-- The message `<observation>text</observation>` of role user. -/
def observationMessage (text : Str) : Message :=
  userMessage ("<observation>".toList ++ text ++ "</observation>".toList)

/-- The message `<question>text</question>` of role user. -/
def questionMessage (text : Str) : Message :=
  userMessage ("<question>".toList ++ text ++ "</question>".toList)

/-- The tag name `final_answer`. -/
def finalAnswerTag : Str := "final_answer".toList

/-- The tag name `action`. -/
def actionTag : Str := "action".toList

/-- What one pass through the body of the loop of `Run` does: return, or go
round again. -/
inductive Step (W : Type) where
  | done : Except RunError Str → RunState W → Step W
  | next : RunState W → Step W

/-- The end of the loop body of `Run`: dispatch the tool and append its
observation. -/
def dispatch {W : Type} (a : Agent W) (toolName : Str) (args : List Str) (st : RunState W) :
    Step W :=
  match executeTool a toolName args st with
  | (observation, st1) =>
    .next { st1 with messages := st1.messages ++ [observationMessage observation] }

/-- The loop body of `Run`, after the reply has been appended to the history. -/
def interpret {W : Type} (a : Agent W) (content : Str) (st : RunState W) : Step W :=
  match extractTag content finalAnswerTag with
  | (finalAnswer, true) => .done (.ok (trimSpace finalAnswer)) st
  | (_, false) =>
    match extractTag content actionTag with
    | (_, false) => .done (.error .missingAction) st
    | (actionPayload, true) =>
      match parseToolCall actionPayload with
      | .error e => .done (.error (.parse e)) st
      | .ok (toolName, args) =>
        match validateToolCall a.tables toolName args with
        | some err =>
          .next { st with messages := st.messages ++
            [observationMessage (validationFailedText ++ err.message)] }
        | none =>
          if toolName = runTerminalCommand then
            match confirmInteractiveTool a st.world with
            | (.error e, w1) => .done (.error e) { st with world := w1 }
            | (.ok false, w1) => .done (.error .cancelled) { st with world := w1 }
            | (.ok true, w1) => dispatch a toolName args { st with world := w1 }
          else dispatch a toolName args st

/-- The state after the model has replied and the reply has been appended. -/
def afterReply {W : Type} (st : RunState W) (content : Str) (w1 : W) : RunState W :=
  { world := w1, round := st.round + 1, messages := st.messages ++ [assistantMessage content],
    calls := st.calls ++ [st.messages], replies := st.replies ++ [content],
    invoked := st.invoked }

/-- The loop body of `Run`: count the round, call the model, append the reply,
interpret it. -/
def iteration {W : Type} (a : Agent W) (st : RunState W) : Step W :=
  match callModel a st.messages st.world with
  | (.error e, w1) =>
    .done (.error e)
      { st with world := w1, round := st.round + 1, calls := st.calls ++ [st.messages] }
  | (.ok content, w1) => interpret a content (afterReply st content w1)

/-- The loop of `Run`, cut off after `fuel` rounds: the result if `Run` has
returned, and the state reached. -/
def runLoop {W : Type} (a : Agent W) : Nat → RunState W → Option (Except RunError Str) × RunState W
  | 0, st => (none, st)
  | fuel + 1, st =>
    match iteration a st with
    | .done r st1 => (some r, st1)
    | .next st1 => runLoop a fuel st1

/-- The history `Run` starts from. -/
def initialMessages {W : Type} (a : Agent W) (w : W) (question : Str) : List Message :=
  [systemMessage (a.renderSystemPrompt w), questionMessage question]

/-- The state `Run` starts from, in a world and with the round counter the
agent has reached. -/
def initialState {W : Type} (a : Agent W) (w : W) (round : Nat) (question : Str) : RunState W :=
  { world := w, round := round, messages := initialMessages a w question,
    calls := [], replies := [], invoked := [] }

/-- Source `Run`, cut off after `fuel` rounds. -/
def Run {W : Type} (a : Agent W) (fuel : Nat) (w : W) (round : Nat) (question : Str) :
    Option (Except RunError Str) × RunState W :=
  runLoop a fuel (initialState a w round question)

/-! ### Shape of the history -/

/-- What the interpretation of a reply may do to a state: on return nothing,
on going round again append one observation; the record of calls and replies is
untouched. -/
def InterpretEffect {W : Type} (st : RunState W) : Step W → Prop
  | .done _ st1 =>
    st1.messages = st.messages ∧ st1.calls = st.calls ∧ st1.replies = st.replies
  | .next st1 =>
    ∃ o, st1.messages = st.messages ++ [observationMessage o]
      ∧ st1.calls = st.calls ∧ st1.replies = st.replies

/-- What one pass through the loop body may do to a state: the history sent is
recorded; on going round again the reply and one observation are appended. -/
def IterationEffect {W : Type} (st : RunState W) : Step W → Prop
  | .done _ st1 => st1.calls = st.calls ++ [st.messages] ∧ st.replies <+: st1.replies
  | .next st1 =>
    ∃ c o, st1.messages = st.messages ++ [assistantMessage c, observationMessage o]
      ∧ st1.calls = st.calls ++ [st.messages] ∧ st1.replies = st.replies ++ [c]

/-- The history made of the initial messages and, for every finished round,
the model's reply as an assistant message and the observation as a user
message. -/
def transcript (init : List Message) (rounds : List (Str × Str)) : List Message :=
  init ++ rounds.flatMap (fun p => [assistantMessage p.1, observationMessage p.2])

/-- The histories sent at the first `n` model calls of a run with the given
rounds: the `k`-th (from 0) is the transcript of the first `k` rounds. -/
def sentHistories (init : List Message) (rounds : List (Str × Str)) (n : Nat) :
    List (List Message) :=
  (List.range n).map (fun k => transcript init (rounds.take k))

/-- The invariant of the loop of `Run` at the head of a round: the history is
the transcript of the finished rounds, whose replies are the replies received,
and the histories sent so far are the transcripts of their beginnings. -/
def LoopInv {W : Type} (init : List Message) (st : RunState W) : Prop :=
  ∃ rounds : List (Str × Str),
    st.messages = transcript init rounds
    ∧ rounds.map Prod.fst = st.replies
    ∧ st.calls = sentHistories init rounds rounds.length

/-- What holds of the record of a run wherever it stops: every history sent is
the transcript of the rounds finished before it. -/
def SentShape {W : Type} (init : List Message) (st : RunState W) : Prop :=
  ∃ rounds : List (Str × Str),
    rounds.map Prod.fst <+: st.replies
    ∧ st.calls.length ≤ rounds.length + 1
    ∧ st.calls = sentHistories init rounds st.calls.length

/-- The role the shape of a history gives to position `i` (from 0): system
first, then user and assistant in turn. -/
def roleAt (i : Nat) : Role :=
  if i = 0 then .system else if i % 2 = 1 then .user else .assistant

/-! ### A scripted agent for examples -/

/-- A world for examples: the replies the model will still give and the lines
the operator will still type. -/
structure Script where
  replies : List Str
  inputs : List Str
  deriving DecidableEq, Repr

/-- An agent whose model and operator follow a script, with the tools `echo`
(returns its first argument), `fail` (reports the error `boom`) and
`run_terminal_command` (returns `ran`). -/
def scriptedAgent : Agent Script where
  tables := asciiTables
  renderSystemPrompt := fun _ => "prompt".toList
  chat := fun _ w =>
    match w.replies with
    | [] => (.error "no reply".toList, w)
    | r :: rs => (.ok [r], { w with replies := rs })
  tools := fun name =>
    if name = "echo".toList then some (fun args w => (.ok (args.headD []), w))
    else if name = "fail".toList then some (fun _ w => (.error "boom".toList, w))
    else if name = runTerminalCommand then some (fun _ w => (.ok "ran".toList, w))
    else none
  readString := fun w =>
    match w.inputs with
    | [] => (.error "EOF".toList, w)
    | l :: ls => (.ok l, { w with inputs := ls })

/-- A reply that holds an action and a final answer. -/
def sampleFinalReply : Str :=
  "<action>echo(\"x\")</action><final_answer> 42 </final_answer>".toList

/-- The scripted world in which the model gives `sampleFinalReply`. -/
def sampleFinalWorld : Script := ⟨[sampleFinalReply], []⟩

/-- A reply whose action has no parentheses. -/
def sampleBadReply : Str := "<thought>t</thought><action>foo</action>".toList

/-- The scripted world in which the model gives `sampleBadReply` and would
give a final answer next. -/
def sampleBadWorld : Script := ⟨[sampleBadReply, "<final_answer>x</final_answer>".toList], []⟩

/-- A reply that asks for a terminal command. -/
def sampleCommandReply : Str := "<action>run_terminal_command(\"ls\")</action>".toList

/-- The scripted world in which the model gives `sampleCommandReply`, would
give a final answer next, and the operator types `n`. -/
def sampleDeclineWorld : Script :=
  ⟨[sampleCommandReply, "<final_answer>x</final_answer>".toList], [" n\n".toList]⟩

/-- A reply that calls a tool that is not registered. -/
def sampleUnknownReply : Str :=
  "<thought>T</thought><action>unknown_tool(\"x\")</action>".toList

/-- The scripted world in which the model gives `sampleUnknownReply` and then
a final answer. -/
def sampleUnknownWorld : Script :=
  ⟨[sampleUnknownReply, "<final_answer>x</final_answer>".toList], []⟩

/-! ## The `write_to_file` handler (`tools.go`) -/

/-- Go `strings.ReplaceAll(s, "\\n", "\n")`: every two-character sequence
backslash, `n`, read left to right without overlap, becomes a line feed. -/
def replaceEscapedNewlines : Str → Str
  | [] => []
  | [c] => [c]
  | c :: d :: s =>
    if c = '\\' ∧ d = 'n' then '\n' :: replaceEscapedNewlines s
    else c :: replaceEscapedNewlines (d :: s)

/-- The handler of `newWriteFileTool` up to its call of `os.WriteFile`: the path
and the content it writes, or its arity error. -/
def writeFileRequest (args : List Str) : Except Str (Str × Str) :=
  match args with
  | [path, content] => .ok (path, replaceEscapedNewlines content)
  | _ => .error "write_to_file 需要 2 个参数".toList

/-! ## Writing a string as a JSON literal -/

/-- Hexadecimal digit, lower case, of a number below 16. -/
def hexDigit (n : Nat) : Char :=
  if n < 10 then Char.ofNat (0x30 + n) else Char.ofNat (0x61 + (n - 10))

/-- How one character is written inside a JSON string literal (RFC 8259 §7,
as Go's encoder does with HTML escaping off): `"` and `\` get a backslash, the
control characters use `\b \f \n \r \t` or `\u00XX`, anything else stands for
itself. -/
def escapeChar (c : Char) : Str :=
  if c = '"' then ['\\', '"']
  else if c = '\\' then ['\\', '\\']
  else if c = Char.ofNat 0x0A then ['\\', 'n']
  else if c = Char.ofNat 0x0D then ['\\', 'r']
  else if c = Char.ofNat 0x09 then ['\\', 't']
  else if c = Char.ofNat 0x08 then ['\\', 'b']
  else if c = Char.ofNat 0x0C then ['\\', 'f']
  else if c.toNat < 0x20 then
    ['\\', 'u', '0', '0', hexDigit (c.toNat / 16), hexDigit (c.toNat % 16)]
  else [c]

/-- The JSON string literal of a string. -/
def jsonStringLiteral (s : Str) : Str :=
  '"' :: (s.flatMap escapeChar ++ ['"'])

/-- The argument text of a call: the literals of the arguments joined by `", "`. -/
def joinArgs (args : List Str) : Str :=
  ", ".toList.intercalate (args.map jsonStringLiteral)

/-- The payload `name(lit₁, lit₂, ...)`. -/
def callPayload (name : Str) (args : List Str) : Str :=
  name ++ '(' :: (joinArgs args ++ [')'])

deriving instance DecidableEq for Except

/-! ## Lemmas on the library models -/

theorem hexVal_hexDigit (n : Nat) (h : n < 16) : hexVal (hexDigit n) = some n := by
  interval_cases n <;> decide

theorem hex4_control (n : Nat) (h : n < 32) :
    hex4 '0' '0' (hexDigit (n / 16)) (hexDigit (n % 16)) = some n := by
  have h0 : hexVal '0' = some 0 := by decide
  have h1 := hexVal_hexDigit (n / 16) (by omega)
  have h2 := hexVal_hexDigit (n % 16) (by omega)
  simp only [hex4, h0, h1, h2]
  congr 1
  omega

theorem scanString_escapeChar (c : Char) (t : Str) :
    scanString (escapeChar c ++ t) = scanString t := by
  unfold escapeChar
  split_ifs with h1 h2 h3 h4 h5 h6 h7 h8
  · rw [scanString.eq_def]; simp [simpleEscape]
  · rw [scanString.eq_def]; simp [simpleEscape]
  · rw [scanString.eq_def]; simp [simpleEscape]
  · rw [scanString.eq_def]; simp [simpleEscape]
  · rw [scanString.eq_def]; simp [simpleEscape]
  · rw [scanString.eq_def]; simp [simpleEscape]
  · rw [scanString.eq_def]; simp [simpleEscape]
  · rw [scanString.eq_def]; simp [hex4_control c.toNat (by omega)]
  · rw [scanString.eq_def]; simp [h1, h2, h8]

theorem scanString_body (s rest : Str) :
    scanString (s.flatMap escapeChar ++ '"' :: rest) = some rest := by
  induction s with
  | nil => rw [scanString.eq_def]; simp
  | cons c s ih => simp [List.append_assoc, scanString_escapeChar, ih]

theorem unquoteStep_escapeChar (c : Char) (t : Str) :
    unquoteStep (escapeChar c ++ t) = some (c, t) := by
  unfold escapeChar
  split_ifs with h1 h2 h3 h4 h5 h6 h7 h8
  · simp [unquoteStep, simpleEscape, h1]
  · simp [unquoteStep, simpleEscape, h2]
  · simp [unquoteStep, simpleEscape, h3]
  · simp [unquoteStep, simpleEscape, h4]
  · simp [unquoteStep, simpleEscape, h5]
  · simp [unquoteStep, simpleEscape, h6]
  · simp [unquoteStep, simpleEscape, h7]
  · have hs : isSurrogate c.toNat = false := by simp [isSurrogate]; omega
    simp [unquoteStep, getu4, hex4_control c.toNat (by omega), hs]
  · simp [unquoteStep, h1, h2, h8]

theorem unquoteLoop_body (s : Str) :
    ∀ fuel, s.length < fuel → unquoteLoop fuel (s.flatMap escapeChar) = some s := by
  induction s with
  | nil => intro fuel h; cases fuel with
    | zero => omega
    | succ n => simp [unquoteLoop]
  | cons c s ih =>
    intro fuel h
    cases fuel with
    | zero => omega
    | succ n =>
      have hne : ∃ x xs, escapeChar c ++ s.flatMap escapeChar = x :: xs := by
        have : escapeChar c ≠ [] := by unfold escapeChar; split_ifs <;> simp
        cases hh : escapeChar c with
        | nil => exact absurd hh this
        | cons x xs => exact ⟨x, xs ++ s.flatMap escapeChar, by simp⟩
      obtain ⟨x, xs, hx⟩ := hne
      have hstep := unquoteStep_escapeChar c (s.flatMap escapeChar)
      simp only [List.flatMap_cons, hx] at hstep ⊢
      simp [unquoteLoop, hstep, ih n (by simpa using h)]

theorem escapeChar_length_pos (c : Char) : 1 ≤ (escapeChar c).length := by
  unfold escapeChar; split_ifs <;> simp

theorem length_le_flatMap_escapeChar (s : Str) : s.length ≤ (s.flatMap escapeChar).length := by
  induction s with
  | nil => simp
  | cons c s ih =>
    have := escapeChar_length_pos c
    simp only [List.flatMap_cons, List.length_append, List.length_cons]
    omega

theorem unquote_jsonStringLiteral (s : Str) : unquote (jsonStringLiteral s) = some s := by
  have hl := length_le_flatMap_escapeChar s
  unfold unquote jsonStringLiteral
  have h1 : ('"' :: (s.flatMap escapeChar ++ ['"'])).getLast? = some '"' := by
    rw [← List.cons_append, List.getLast?_append]; simp
  have h2 : ('"' :: (s.flatMap escapeChar ++ ['"'])).tail.dropLast = s.flatMap escapeChar := by
    simp
  rw [if_pos ⟨by simp, by simp, h1⟩, h2]
  exact unquoteLoop_body s _ (by simp only [List.length_cons, List.length_append, List.length_nil]; omega)

theorem consumed_append (a b : Str) : consumed (a ++ b) b = a := by
  simp [consumed]

theorem scanValue_literal (fuel depth : Nat) (s rest : Str) :
    scanValue (fuel + 1) depth (jsonStringLiteral s ++ rest) = some rest := by
  simp [jsonStringLiteral, scanValue, scanString_body]

theorem skipWS_nil : skipWS [] = [] := rfl

theorem unmarshalString_literal (s : Str) :
    unmarshalString (jsonStringLiteral s) = .ok s := by
  have hsk : skipWS (jsonStringLiteral s) = jsonStringLiteral s := by
    simp [skipWS, jsonStringLiteral, isJsonSpace]
  have hsc : scanValue (scanFuel (jsonStringLiteral s)) 0 (jsonStringLiteral s) = some [] := by
    have := scanValue_literal (2 * (jsonStringLiteral s).length + 1) 0 s []
    simpa [scanFuel] using this
  have hc : consumed (jsonStringLiteral s) [] = jsonStringLiteral s := by
    simpa using consumed_append (jsonStringLiteral s) []
  unfold unmarshalString
  rw [hsk]
  have hshape : jsonStringLiteral s = '"' :: (s.flatMap escapeChar ++ ['"']) := rfl
  rw [hshape] at hsc hc ⊢
  simp only [hsc, hc, skipWS_nil, if_true]
  rw [← hshape, unquote_jsonStringLiteral]

theorem joinArgs_single (a : Str) : joinArgs [a] = jsonStringLiteral a := by
  simp [joinArgs, List.intercalate]

theorem joinArgs_cons_cons (a b : Str) (l : List Str) :
    joinArgs (a :: b :: l) = jsonStringLiteral a ++ ',' :: ' ' :: joinArgs (b :: l) := by
  simp [joinArgs, List.intercalate]

theorem joinArgs_cons_shape (a : Str) (l : List Str) :
    ∃ t, joinArgs (a :: l) = '"' :: t ∧ l.length < t.length := by
  induction l generalizing a with
  | nil => exact ⟨a.flatMap escapeChar ++ ['"'], by simp [joinArgs_single, jsonStringLiteral]⟩
  | cons b l ih =>
    obtain ⟨t, ht, hlen⟩ := ih b
    refine ⟨a.flatMap escapeChar ++ ['"'] ++ ',' :: ' ' :: joinArgs (b :: l), ?_, ?_⟩
    · simp [joinArgs_cons_cons, jsonStringLiteral]
    · rw [ht]; simp; omega

theorem scanValue_literal_fuel (depth : Nat) (a t : Str) :
    scanValue (scanFuel (jsonStringLiteral a ++ t)) depth (jsonStringLiteral a ++ t) = some t :=
  scanValue_literal (2 * (jsonStringLiteral a ++ t).length + 1) depth a t

theorem rawElems_literal_comma (a tl : Str) (n : Nat) :
    rawElems (n + 1) (jsonStringLiteral a ++ ',' :: tl)
      = (rawElems n (skipWS tl)).map (jsonStringLiteral a :: ·) := by
  have hsk : skipWS (',' :: tl) = ',' :: tl := rfl
  rw [rawElems]
  simp only [scanValue_literal_fuel, consumed_append, hsk, if_true]

theorem rawElems_literal_close (a : Str) (n : Nat) :
    rawElems (n + 1) (jsonStringLiteral a ++ [']']) = some [jsonStringLiteral a] := by
  have hsk : skipWS [']'] = [']'] := rfl
  have h1 : (']' = ',') = False := by decide
  rw [rawElems]
  simp only [scanValue_literal_fuel, consumed_append, hsk, h1, if_false, if_true, skipWS_nil]

theorem rawElems_joinArgs (l : List Str) : ∀ (a : Str) (fuel : Nat), l.length < fuel →
    rawElems fuel (joinArgs (a :: l) ++ [']']) = some ((a :: l).map jsonStringLiteral) := by
  induction l with
  | nil =>
    intro a fuel h
    cases fuel with
    | zero => omega
    | succ n => rw [joinArgs_single, rawElems_literal_close]; rfl
  | cons b l ih =>
    intro a fuel h
    cases fuel with
    | zero => omega
    | succ n =>
      obtain ⟨t, ht, -⟩ := joinArgs_cons_shape b l
      have hsk : skipWS (' ' :: (joinArgs (b :: l) ++ [']'])) = joinArgs (b :: l) ++ [']'] := by
        rw [ht]; rfl
      have hih := ih b n (by simpa using h)
      rw [joinArgs_cons_cons, List.append_assoc, List.cons_append, List.cons_append,
        rawElems_literal_comma, hsk, hih]
      rfl

theorem decodeArgs_literals (l : List Str) (i : Nat) :
    decodeArgs i (l.map jsonStringLiteral) = .ok l := by
  induction l generalizing i with
  | nil => rfl
  | cons a l ih => simp [decodeArgs, unmarshalString_literal, ih]

theorem trimSpace_nil : trimSpace [] = [] := rfl

theorem trimSpace_of_ends (c d : Char) (t u : Str) (s : Str) (h1 : s = c :: t) (h2 : s = u ++ [d])
    (hc : isSpace c = false) (hd : isSpace d = false) : trimSpace s = s := by
  unfold trimSpace
  have e1 : List.dropWhile isSpace s = s := by
    rw [h1]; simp [List.dropWhile, hc]
  rw [e1, h2, List.rdropWhile_concat_neg]
  simp [hd]

theorem joinArgs_cons_last (a : Str) (l : List Str) :
    ∃ u, joinArgs (a :: l) = u ++ ['"'] := by
  induction l generalizing a with
  | nil => exact ⟨'"' :: a.flatMap escapeChar, by simp [joinArgs_single, jsonStringLiteral]⟩
  | cons b l ih =>
    obtain ⟨u, hu⟩ := ih b
    exact ⟨jsonStringLiteral a ++ ',' :: ' ' :: u, by simp [joinArgs_cons_cons, hu]⟩

theorem trimSpace_joinArgs (args : List Str) : trimSpace (joinArgs args) = joinArgs args := by
  cases args with
  | nil => rfl
  | cons a l =>
    obtain ⟨t, ht, -⟩ := joinArgs_cons_shape a l
    obtain ⟨u, hu⟩ := joinArgs_cons_last a l
    exact trimSpace_of_ends '"' '"' t u _ ht hu (by decide) (by decide)

theorem parseJSONArguments_joinArgs (args : List Str) :
    parseJSONArguments (joinArgs args) = .ok args := by
  cases args with
  | nil => rfl
  | cons a l =>
    obtain ⟨t, ht, hlen⟩ := joinArgs_cons_shape a l
    have hne : ¬ trimSpace (joinArgs (a :: l)) = [] := by
      rw [trimSpace_joinArgs, ht]; simp
    have hraw : unmarshalRawArray ('[' :: joinArgs (a :: l) ++ [']'])
        = .ok ((a :: l).map jsonStringLiteral) := by
      have hr := rawElems_joinArgs l a ((joinArgs (a :: l) ++ [']']).length + 1)
        (by rw [ht]; simp; omega)
      have hsk1 : skipWS ('[' :: joinArgs (a :: l) ++ [']']) = '[' :: (joinArgs (a :: l) ++ [']']) := rfl
      have hsk2 : skipWS (joinArgs (a :: l) ++ [']']) = '"' :: (t ++ [']']) := by
        rw [ht]; rfl
      have h1 : ('"' = ']') = False := by decide
      unfold unmarshalRawArray
      rw [hsk1]
      simp only [if_true, hsk2, h1, if_false]
      have hr2 : rawElems ((joinArgs (a :: l) ++ [']']).length + 1) ('"' :: (t ++ [']']))
          = some ((a :: l).map jsonStringLiteral) := by
        rw [← List.cons_append, ← ht]; exact hr
      rw [hr2]
    unfold parseJSONArguments
    rw [if_neg hne, hraw]
    exact decodeArgs_literals (a :: l) 0

theorem length_trimSpace_le (s : Str) : (trimSpace s).length ≤ (List.dropWhile isSpace s).length :=
  (List.rdropWhile_prefix isSpace _).length_le

theorem head_of_trimSpace_eq_self (c : Char) (t : Str) (h : trimSpace (c :: t) = c :: t) :
    isSpace c = false := by
  by_contra hc
  have hc2 : isSpace c = true := by simpa using hc
  have h1 := length_trimSpace_le (c :: t)
  have h2 : (List.dropWhile isSpace (c :: t)).length ≤ t.length := by
    rw [List.dropWhile_cons_of_pos hc2]
    exact (List.dropWhile_suffix isSpace).length_le
  rw [h] at h1
  simp at h1
  omega

theorem indexChar_append_cons (c : Char) (s t : Str) (h : c ∉ s) :
    indexChar c (s ++ c :: t) = some s.length := by
  induction s with
  | nil => simp [indexChar]
  | cons x s ih =>
    have hx : x ≠ c := fun e => h (by simp [e])
    have hs : c ∉ s := fun e => h (by simp [e])
    simp [indexChar, hx, ih hs]

theorem lastIndexChar_concat (c : Char) (s : Str) :
    lastIndexChar c (s ++ [c]) = some s.length := by
  simp [lastIndexChar, indexChar]

theorem slice_left (a b : Str) : slice (a ++ b) 0 a.length = a := by
  simp [slice]

theorem slice_middle (a : Str) (x : Char) (m z : Str) :
    slice (a ++ x :: (m ++ z)) (a.length + 1) (a.length + 1 + m.length) = m := by
  have h : List.drop (a.length + 1) (a ++ x :: (m ++ z)) = m ++ z := by
    rw [List.drop_append_eq_append_drop]
    simp
  simp [slice, h]

theorem parseToolCall_callPayload (name : Str) (args : List Str)
    (hne : name ≠ []) (hopen : '(' ∉ name) (htrim : trimSpace name = name) :
    parseToolCall (callPayload name args) = .ok (name, args) := by
  obtain ⟨c, t, rfl⟩ := List.exists_cons_of_ne_nil hne
  have hc := head_of_trimSpace_eq_self c t htrim
  have hp : trimSpace (callPayload (c :: t) args) = callPayload (c :: t) args :=
    trimSpace_of_ends c ')' (t ++ '(' :: (joinArgs args ++ [')'])) ((c :: t) ++ '(' :: joinArgs args)
      _ (by simp [callPayload]) (by simp [callPayload]) hc (by decide)
  have hi : indexChar '(' (callPayload (c :: t) args) = some (c :: t).length :=
    indexChar_append_cons '(' (c :: t) _ hopen
  have hl : lastIndexChar ')' (callPayload (c :: t) args)
      = some ((c :: t).length + 1 + (joinArgs args).length) := by
    have h := lastIndexChar_concat ')' ((c :: t) ++ '(' :: joinArgs args)
    have e : callPayload (c :: t) args = ((c :: t) ++ '(' :: joinArgs args) ++ [')'] := by
      simp [callPayload]
    rw [e, h]
    simp only [List.length_append, List.length_cons]
    congr 1; omega
  have hs1 : slice (callPayload (c :: t) args) 0 (c :: t).length = c :: t :=
    slice_left (c :: t) _
  have hs2 : slice (callPayload (c :: t) args) ((c :: t).length + 1)
      ((c :: t).length + 1 + (joinArgs args).length) = joinArgs args :=
    slice_middle (c :: t) '(' (joinArgs args) [')']
  have hlt : ¬ ((c :: t).length + 1 + (joinArgs args).length < (c :: t).length) := by omega
  have hne2 : ¬ callPayload (c :: t) args = [] := by simp [callPayload]
  unfold parseToolCall
  simp only [hp, hi, hl, hs1, hs2, htrim, trimSpace_joinArgs, parseJSONArguments_joinArgs,
    if_neg hne2, if_neg hlt, if_neg hne]
/-! ## Lemmas on the tag extractor -/

theorem isPrefixOf_iff (w s : Str) : w.isPrefixOf s = true ↔ w <+: s := by
  simp

theorem infix_window (w a post : Str) (ha : a ≠ []) (h : w <+: a ++ w ++ post) :
    w <:+: a ++ w.dropLast := by
  have h2 : a ++ w.dropLast <+: a ++ w ++ post := by
    rw [List.append_assoc]
    exact (List.prefix_append_right_inj a).2
      ((List.dropLast_prefix w).trans (List.prefix_append w post))
  have hlen : w.length ≤ (a ++ w.dropLast).length := by
    have : 1 ≤ a.length := List.length_pos.2 ha
    simp only [List.length_append, List.length_dropLast]
    omega
  exact (List.prefix_of_prefix_length_le h h2 hlen).isInfix

theorem matchLazyUntil_cons (cls : Str) (c : Char) (s : Str) :
    matchLazyUntil cls (c :: s)
      = if cls.isPrefixOf (c :: s) = true then some []
        else (matchLazyUntil cls s).map (c :: ·) := rfl

theorem matchLazyUntil_first (cls : Str) (hcls : cls ≠ []) (mid post : Str)
    (hfirst : ¬ cls <:+: mid ++ cls.dropLast) :
    matchLazyUntil cls (mid ++ cls ++ post) = some mid := by
  induction mid with
  | nil =>
    obtain ⟨c, t, rfl⟩ := List.exists_cons_of_ne_nil hcls
    have : (c :: t).isPrefixOf (c :: (t ++ post)) = true := by
      rw [isPrefixOf_iff]; exact List.prefix_append (c :: t) post
    rw [List.nil_append, List.cons_append, matchLazyUntil_cons, if_pos this]
  | cons m ms ih =>
    have hnp : ¬ (cls.isPrefixOf (m :: (ms ++ cls ++ post)) = true) := by
      rw [isPrefixOf_iff]
      intro hp
      exact hfirst (infix_window cls (m :: ms) post (by simp) (by simpa using hp))
    have hrec : ¬ cls <:+: ms ++ cls.dropLast := fun hi =>
      hfirst (hi.trans (List.infix_cons (List.infix_refl _)))
    rw [List.cons_append, List.cons_append, matchLazyUntil_cons, if_neg hnp, ih hrec]
    rfl

theorem matchLazyUntil_sound (cls : Str) : ∀ (s g : Str), matchLazyUntil cls s = some g →
    ∃ post, s = g ++ cls ++ post := by
  intro s
  induction s with
  | nil =>
    intro g h
    simp only [matchLazyUntil] at h
    split_ifs at h with hc
    cases h
    exact ⟨[], by simp [hc]⟩
  | cons c s ih =>
    intro g h
    rw [matchLazyUntil_cons] at h
    split_ifs at h with hp
    · cases h
      rw [isPrefixOf_iff] at hp
      obtain ⟨post, hpost⟩ := hp
      exact ⟨post, by simp [hpost]⟩
    · cases hm : matchLazyUntil cls s with
      | none => simp [hm] at h
      | some g1 =>
        simp [hm] at h
        obtain ⟨post, hpost⟩ := ih g1 hm
        exact ⟨post, by rw [← h, hpost]; simp⟩

theorem matchLazyUntil_complete (cls : Str) (mid post : Str) :
    (matchLazyUntil cls (mid ++ cls ++ post)).isSome = true := by
  induction mid with
  | nil =>
    cases cls with
    | nil => cases post <;> simp [matchLazyUntil]
    | cons c t =>
      have : (c :: t).isPrefixOf (c :: (t ++ post)) = true := by
        rw [isPrefixOf_iff]; exact List.prefix_append (c :: t) post
      rw [List.nil_append, List.cons_append, matchLazyUntil_cons, if_pos this]
      rfl
  | cons m ms ih =>
    rw [List.cons_append, List.cons_append, matchLazyUntil_cons]
    split_ifs
    · rfl
    · simpa using ih
theorem findSubmatch_cons (opn cls : Str) (c : Char) (s : Str) :
    findSubmatch opn cls (c :: s)
      = match matchAt opn cls (c :: s) with
        | some g => some g
        | none => findSubmatch opn cls s := rfl

theorem matchAt_append (opn cls rest : Str) :
    matchAt opn cls (opn ++ rest) = matchLazyUntil cls rest := by
  have h : opn.isPrefixOf (opn ++ rest) = true := by
    rw [isPrefixOf_iff]; exact List.prefix_append opn rest
  simp [matchAt, h]

theorem findSubmatch_of_matchAt (opn cls s g : Str) (h : matchAt opn cls s = some g) :
    findSubmatch opn cls s = some g := by
  cases s with
  | nil => simpa [findSubmatch] using h
  | cons c s => rw [findSubmatch_cons, h]

theorem findSubmatch_skip (opn cls : Str) (pre rest : Str)
    (hfirst : ¬ opn <:+: pre ++ opn.dropLast) :
    findSubmatch opn cls (pre ++ opn ++ rest) = findSubmatch opn cls (opn ++ rest) := by
  induction pre with
  | nil => simp
  | cons p ps ih =>
    have hnp : ¬ (opn.isPrefixOf (p :: (ps ++ opn ++ rest)) = true) := by
      rw [isPrefixOf_iff]
      intro hp
      exact hfirst (infix_window opn (p :: ps) rest (by simp) (by simpa using hp))
    have hrec : ¬ opn <:+: ps ++ opn.dropLast := fun hi =>
      hfirst (hi.trans (List.infix_cons (List.infix_refl _)))
    have hm : matchAt opn cls (p :: (ps ++ opn ++ rest)) = none := by
      unfold matchAt; rw [if_neg hnp]
    rw [List.cons_append, List.cons_append, findSubmatch_cons, hm]
    exact ih hrec

theorem findSubmatch_sound (opn cls : Str) : ∀ (s g : Str), findSubmatch opn cls s = some g →
    ∃ pre post, s = pre ++ opn ++ g ++ cls ++ post := by
  have hAt : ∀ (s g : Str), matchAt opn cls s = some g → ∃ post, s = opn ++ g ++ cls ++ post := by
    intro s g h
    unfold matchAt at h
    split_ifs at h with hp
    rw [isPrefixOf_iff] at hp
    obtain ⟨r, hr⟩ := hp
    have hd : s.drop opn.length = r := by rw [← hr]; simp
    rw [hd] at h
    obtain ⟨post, hpost⟩ := matchLazyUntil_sound cls r g h
    exact ⟨post, by rw [← hr, hpost]; simp⟩
  intro s
  induction s with
  | nil =>
    intro g h
    obtain ⟨post, hpost⟩ := hAt [] g (by simpa [findSubmatch] using h)
    exact ⟨[], post, by simpa using hpost⟩
  | cons c s ih =>
    intro g h
    rw [findSubmatch_cons] at h
    cases hm : matchAt opn cls (c :: s) with
    | some g1 =>
      rw [hm] at h
      cases h
      obtain ⟨post, hpost⟩ := hAt _ _ hm
      exact ⟨[], post, by simpa using hpost⟩
    | none =>
      rw [hm] at h
      obtain ⟨pre, post, hpp⟩ := ih g h
      exact ⟨c :: pre, post, by rw [hpp]; simp⟩

theorem findSubmatch_complete (opn cls : Str) (pre mid post : Str) :
    (findSubmatch opn cls (pre ++ opn ++ mid ++ cls ++ post)).isSome = true := by
  induction pre with
  | nil =>
    have h1 : matchAt opn cls (opn ++ (mid ++ cls ++ post)) = matchLazyUntil cls (mid ++ cls ++ post) :=
      matchAt_append opn cls _
    have h2 := matchLazyUntil_complete cls mid post
    obtain ⟨g, hg⟩ := Option.isSome_iff_exists.1 h2
    have h3 := findSubmatch_of_matchAt opn cls _ g (h1.trans hg)
    have e : [] ++ opn ++ mid ++ cls ++ post = opn ++ (mid ++ cls ++ post) := by simp
    rw [e, h3]; rfl
  | cons p ps ih =>
    have e : p :: ps ++ opn ++ mid ++ cls ++ post = p :: (ps ++ opn ++ mid ++ cls ++ post) := by simp
    rw [e, findSubmatch_cons]
    cases matchAt opn cls (p :: (ps ++ opn ++ mid ++ cls ++ post)) with
    | some g => rfl
    | none => exact ih

theorem openTag_ne_nil (tag : Str) : openTag tag ≠ [] := by simp [openTag]

theorem closeTag_ne_nil (tag : Str) : closeTag tag ≠ [] := by simp [closeTag]

theorem extractTag_first (text tag pre mid post : Str)
    (hdec : text = pre ++ openTag tag ++ mid ++ closeTag tag ++ post)
    (hopn : ¬ openTag tag <:+: pre ++ (openTag tag).dropLast)
    (hcls : ¬ closeTag tag <:+: mid ++ (closeTag tag).dropLast) :
    extractTag text tag = (trimSpace mid, true) := by
  have e : text = pre ++ openTag tag ++ (mid ++ closeTag tag ++ post) := by simp [hdec]
  have h1 := findSubmatch_skip (openTag tag) (closeTag tag) pre (mid ++ closeTag tag ++ post) hopn
  have h2 := matchAt_append (openTag tag) (closeTag tag) (mid ++ closeTag tag ++ post)
  have h3 := matchLazyUntil_first (closeTag tag) (closeTag_ne_nil tag) mid post hcls
  have h4 := findSubmatch_of_matchAt _ _ _ _ (h2.trans h3)
  unfold extractTag
  rw [e, h1, h4]

theorem extractTag_found_iff (text tag : Str) :
    (extractTag text tag).2 = true
      ↔ ∃ pre mid post, text = pre ++ openTag tag ++ mid ++ closeTag tag ++ post := by
  constructor
  · intro h
    unfold extractTag at h
    cases hf : findSubmatch (openTag tag) (closeTag tag) text with
    | none => simp [hf] at h
    | some g =>
      obtain ⟨pre, post, hpp⟩ := findSubmatch_sound _ _ _ _ hf
      exact ⟨pre, g, post, hpp⟩
  · rintro ⟨pre, mid, post, rfl⟩
    have := findSubmatch_complete (openTag tag) (closeTag tag) pre mid post
    obtain ⟨g, hg⟩ := Option.isSome_iff_exists.1 this
    unfold extractTag
    rw [hg]

theorem extractTag_not_found (text tag : Str) (h : (extractTag text tag).2 = false) :
    extractTag text tag = ([], false) := by
  unfold extractTag at h ⊢
  cases hf : findSubmatch (openTag tag) (closeTag tag) text with
  | none => rfl
  | some g => simp [hf] at h
theorem not_infix_dropLast (w u : Str) (hu : u.length < w.length) :
    ¬ w <:+: u := fun h => by
  have := h.length_le
  omega

theorem dropLast_append_getLast_eq (w : Str) (hw : w ≠ []) :
    ∃ x, w = w.dropLast ++ [x] :=
  ⟨w.getLast hw, (List.dropLast_append_getLast hw).symm⟩

theorem matchLazyUntil_shortest (cls : Str) (hcls : cls ≠ []) : ∀ (s g : Str),
    matchLazyUntil cls s = some g → ¬ cls <:+: g ++ cls.dropLast := by
  have hlen : cls.dropLast.length < cls.length := by
    have : 0 < cls.length := List.length_pos.2 hcls
    simp only [List.length_dropLast]; omega
  intro s
  induction s with
  | nil =>
    intro g h
    simp only [matchLazyUntil, if_neg hcls] at h
    cases h
  | cons c s ih =>
    intro g h
    rw [matchLazyUntil_cons] at h
    split_ifs at h with hp
    · cases h
      exact not_infix_dropLast cls _ (by simpa using hlen)
    · cases hm : matchLazyUntil cls s with
      | none => simp [hm] at h
      | some g1 =>
        simp only [hm, Option.map_some', Option.some.injEq] at h
        subst h
        obtain ⟨post, hpost⟩ := matchLazyUntil_sound cls s g1 hm
        intro hin
        rw [List.cons_append, List.infix_cons_iff] at hin
        rcases hin with hpre | hinf
        · apply hp
          rw [isPrefixOf_iff]
          refine hpre.trans ?_
          rw [hpost, List.append_assoc]
          exact (List.prefix_cons_inj c).2 ((List.prefix_append_right_inj g1).2
            ((List.dropLast_prefix cls).trans (List.prefix_append cls post)))
        · exact ih g1 hm hinf

theorem findSubmatch_leftmost (opn cls : Str) (hopn : opn ≠ []) (hcls : cls ≠ []) :
    ∀ (s g : Str), findSubmatch opn cls s = some g →
      ∃ pre post, s = pre ++ opn ++ g ++ cls ++ post
        ∧ ¬ opn <:+: pre ++ opn.dropLast ∧ ¬ cls <:+: g ++ cls.dropLast := by
  have hlen : opn.dropLast.length < opn.length := by
    have : 0 < opn.length := List.length_pos.2 hopn
    simp only [List.length_dropLast]; omega
  have hAt : ∀ (s g : Str), matchAt opn cls s = some g →
      ∃ post, s = opn ++ g ++ cls ++ post ∧ ¬ cls <:+: g ++ cls.dropLast := by
    intro s g h
    unfold matchAt at h
    split_ifs at h with hp
    rw [isPrefixOf_iff] at hp
    obtain ⟨r, hr⟩ := hp
    have hd : s.drop opn.length = r := by rw [← hr]; simp
    rw [hd] at h
    obtain ⟨post, hpost⟩ := matchLazyUntil_sound cls r g h
    exact ⟨post, by rw [← hr, hpost]; simp, matchLazyUntil_shortest cls hcls r g h⟩
  intro s
  induction s with
  | nil =>
    intro g h
    obtain ⟨post, hpost, hsh⟩ := hAt [] g (by simpa [findSubmatch] using h)
    exact ⟨[], post, by simpa using hpost, not_infix_dropLast opn _ (by simpa using hlen), hsh⟩
  | cons c s ih =>
    intro g h
    rw [findSubmatch_cons] at h
    cases hm : matchAt opn cls (c :: s) with
    | some g1 =>
      rw [hm] at h
      cases h
      obtain ⟨post, hpost, hsh⟩ := hAt _ _ hm
      exact ⟨[], post, by simpa using hpost,
        not_infix_dropLast opn _ (by simpa using hlen), hsh⟩
    | none =>
      rw [hm] at h
      obtain ⟨pre, post, hpp, hfo, hfc⟩ := ih g h
      refine ⟨c :: pre, post, by rw [hpp]; simp, ?_, hfc⟩
      intro hin
      rw [List.cons_append, List.infix_cons_iff] at hin
      rcases hin with hpre | hinf
      · obtain ⟨r, hr⟩ := hpre
        obtain ⟨x, hx⟩ := dropLast_append_getLast_eq opn hopn
        have hs : c :: s = opn ++ ((r ++ x :: g) ++ cls ++ post) := by
          have e1 : c :: s = (c :: (pre ++ opn.dropLast)) ++ (x :: g ++ cls ++ post) := by
            rw [hpp]
            conv_lhs => rw [hx]
            simp
          rw [e1, ← hr]; simp
        have hsome := matchLazyUntil_complete cls (r ++ x :: g) post
        rw [hs, matchAt_append] at hm
        rw [hm] at hsome
        cases hsome
      · exact hfo hinf

/-! ## Lemmas on the validator -/

theorem equalFoldRune_self (U : CaseTables) (c : Char) : equalFoldRune U c c = true := by
  simp [equalFoldRune]

theorem equalFold_self (U : CaseTables) (s : Str) : equalFold U s s = true := by
  induction s with
  | nil => rfl
  | cons c s ih => simp [equalFold, equalFoldRune_self, ih]
/-! ## Lemmas on the conversation loop -/

theorem head_trimSpace_not_space (s : Str) (c : Char) (t : Str) (h : trimSpace s = c :: t) :
    isSpace c = false := by
  unfold trimSpace at h
  have hpre : List.rdropWhile isSpace (List.dropWhile isSpace s) <+: List.dropWhile isSpace s :=
    List.rdropWhile_prefix isSpace _
  rw [h] at hpre
  obtain ⟨r, hr⟩ := hpre
  have hd : List.dropWhile isSpace s = c :: (t ++ r) := by rw [← hr]; rfl
  have := List.head_dropWhile_not isSpace s (by rw [hd]; simp)
  simpa [hd] using this

theorem last_trimSpace_not_space (s : Str) (u : Str) (d : Char) (h : trimSpace s = u ++ [d]) :
    isSpace d = false := by
  unfold trimSpace at h
  have hne : List.rdropWhile isSpace (List.dropWhile isSpace s) ≠ [] := by rw [h]; simp
  have := List.rdropWhile_last_not isSpace (List.dropWhile isSpace s) hne
  simpa [h] using this

theorem trimSpace_idem (s : Str) : trimSpace (trimSpace s) = trimSpace s := by
  cases ht : trimSpace s with
  | nil => rfl
  | cons c t =>
    have hc := head_trimSpace_not_space s c t ht
    obtain ⟨x, hx⟩ := dropLast_append_getLast_eq (c :: t) (by simp)
    have hd := last_trimSpace_not_space s _ x (ht.trans hx)
    exact trimSpace_of_ends c x t _ (c :: t) rfl hx hc hd
theorem callModel_reply {W : Type} (a : Agent W) (msgs : List Message) (w w1 : W)
    (content : Str) (more : List Str)
    (hreply : a.chat msgs w = (.ok (content :: more), w1)) (hne : content ≠ []) :
    callModel a msgs w = (.ok content, w1) := by
  unfold callModel
  rw [hreply]
  simp only [if_neg hne]

theorem iteration_reply {W : Type} (a : Agent W) (st : RunState W) (w1 : W)
    (content : Str) (more : List Str)
    (hreply : a.chat st.messages st.world = (.ok (content :: more), w1)) (hne : content ≠ []) :
    iteration a st = interpret a content (afterReply st content w1) := by
  unfold iteration
  rw [callModel_reply a _ _ _ _ _ hreply hne]

theorem runLoop_done {W : Type} (a : Agent W) (fuel : Nat) (st st1 : RunState W)
    (r : Except RunError Str) (h : iteration a st = .done r st1) :
    runLoop a (fuel + 1) st = (some r, st1) := by
  simp only [runLoop, h]

theorem runLoop_next {W : Type} (a : Agent W) (fuel : Nat) (st st1 : RunState W)
    (h : iteration a st = .next st1) :
    runLoop a (fuel + 1) st = runLoop a fuel st1 := by
  simp only [runLoop, h]

theorem interpret_final {W : Type} (a : Agent W) (content ans : Str) (st : RunState W)
    (h : extractTag content finalAnswerTag = (ans, true)) :
    interpret a content st = .done (.ok (trimSpace ans)) st := by
  unfold interpret
  rw [h]

theorem interpret_parse_error {W : Type} (a : Agent W) (content payload : Str) (e : ParseError)
    (st : RunState W)
    (hfinal : (extractTag content finalAnswerTag).2 = false)
    (haction : extractTag content actionTag = (payload, true))
    (hparse : parseToolCall payload = .error e) :
    interpret a content st = .done (.error (.parse e)) st := by
  unfold interpret
  rw [extractTag_not_found _ _ hfinal]
  simp only [haction, hparse]

theorem interpret_call {W : Type} (a : Agent W) (content payload name : Str) (args : List Str)
    (st : RunState W)
    (hfinal : (extractTag content finalAnswerTag).2 = false)
    (haction : extractTag content actionTag = (payload, true))
    (hparse : parseToolCall payload = .ok (name, args))
    (hvalid : validateToolCall a.tables name args = none) :
    interpret a content st
      = if name = runTerminalCommand then
          match confirmInteractiveTool a st.world with
          | (.error e, w1) => .done (.error e) { st with world := w1 }
          | (.ok false, w1) => .done (.error .cancelled) { st with world := w1 }
          | (.ok true, w1) => dispatch a name args { st with world := w1 }
        else dispatch a name args st := by
  unfold interpret
  rw [extractTag_not_found _ _ hfinal]
  simp only [haction, hparse, hvalid]
theorem runTerminalCommand_ne_queryDatabase : runTerminalCommand ≠ queryDatabase := by decide

theorem validateToolCall_other (U : CaseTables) (name : Str) (args : List Str)
    (h : name ≠ queryDatabase) : validateToolCall U name args = none := by
  unfold validateToolCall; rw [if_neg h]

theorem confirm_read_ok {W : Type} (a : Agent W) (w w2 : W) (input : Str)
    (h : a.readString w = (.ok input, w2)) :
    confirmInteractiveTool a w = (.ok (equalFold a.tables (trimSpace input) yes), w2) := by
  unfold confirmInteractiveTool; rw [h]

theorem confirm_read_error {W : Type} (a : Agent W) (w w2 : W) (e : Str)
    (h : a.readString w = (.error e, w2)) :
    confirmInteractiveTool a w = (.error (.readInput e), w2) := by
  unfold confirmInteractiveTool; rw [h]
theorem dispatch_effect {W : Type} (a : Agent W) (name : Str) (args : List Str)
    (st : RunState W) : InterpretEffect st (dispatch a name args st) := by
  unfold dispatch executeTool
  cases a.tools name with
  | none => exact ⟨_, rfl, rfl, rfl⟩
  | some h =>
    simp only
    rcases hh : h args st.world with ⟨r, w1⟩
    cases r with
    | error e => exact ⟨_, rfl, rfl, rfl⟩
    | ok v => exact ⟨_, rfl, rfl, rfl⟩

theorem interpretEffect_world {W : Type} (st : RunState W) (w1 : W) (s : Step W)
    (h : InterpretEffect { st with world := w1 } s) : InterpretEffect st s := by
  cases s with
  | done r st1 => exact h
  | next st1 => exact h

theorem interpret_effect {W : Type} (a : Agent W) (content : Str) (st : RunState W) :
    InterpretEffect st (interpret a content st) := by
  unfold interpret
  rcases extractTag content finalAnswerTag with ⟨ans, b⟩
  cases b with
  | true => exact ⟨rfl, rfl, rfl⟩
  | false =>
    simp only
    rcases extractTag content actionTag with ⟨payload, b2⟩
    cases b2 with
    | false => exact ⟨rfl, rfl, rfl⟩
    | true =>
      simp only
      cases parseToolCall payload with
      | error e => exact ⟨rfl, rfl, rfl⟩
      | ok p =>
        rcases p with ⟨name, args⟩
        simp only
        cases validateToolCall a.tables name args with
        | some err => exact ⟨_, rfl, rfl, rfl⟩
        | none =>
          simp only
          split_ifs with hn
          · rcases hc : confirmInteractiveTool a st.world with ⟨r, w1⟩
            cases r with
            | error e => exact ⟨rfl, rfl, rfl⟩
            | ok b3 =>
              cases b3 with
              | false => exact ⟨rfl, rfl, rfl⟩
              | true => exact interpretEffect_world st w1 _ (dispatch_effect a name args _)
          · exact dispatch_effect a name args st

theorem iteration_effect {W : Type} (a : Agent W) (st : RunState W) :
    IterationEffect st (iteration a st) := by
  unfold iteration
  rcases hc : callModel a st.messages st.world with ⟨r, w1⟩
  cases r with
  | error e => exact ⟨rfl, List.prefix_refl _⟩
  | ok content =>
    simp only
    have h := interpret_effect a content (afterReply st content w1)
    cases hi : interpret a content (afterReply st content w1) with
    | done r st1 =>
      rw [hi] at h
      exact ⟨h.2.1, h.2.2 ▸ List.prefix_append _ _⟩
    | next st1 =>
      rw [hi] at h
      obtain ⟨o, hm, hcalls, hrep⟩ := h
      exact ⟨content, o, by rw [hm]; simp [afterReply], hcalls, hrep⟩

theorem runLoop_calls_mono {W : Type} (a : Agent W) (fuel : Nat) :
    ∀ st : RunState W, st.calls <+: (runLoop a fuel st).2.calls := by
  induction fuel with
  | zero => intro st; exact List.prefix_refl _
  | succ n ih =>
    intro st
    have h := iteration_effect a st
    cases hi : iteration a st with
    | done r st1 =>
      rw [hi] at h
      rw [runLoop_done a n _ _ _ hi]
      exact ⟨[st.messages], h.1.symm⟩
    | next st1 =>
      rw [hi] at h
      obtain ⟨c, o, -, hcalls, -⟩ := h
      rw [runLoop_next a n _ _ hi]
      exact (List.prefix_append _ _).trans (hcalls ▸ ih st1)

theorem runLoop_calls_first {W : Type} (a : Agent W) (fuel : Nat) (st : RunState W) :
    st.calls ++ [st.messages] <+: (runLoop a (fuel + 1) st).2.calls := by
  have h := iteration_effect a st
  cases hi : iteration a st with
  | done r st1 =>
    rw [hi] at h
    rw [runLoop_done a fuel _ _ _ hi]
    exact h.1 ▸ List.prefix_refl _
  | next st1 =>
    rw [hi] at h
    obtain ⟨c, o, -, hcalls, -⟩ := h
    rw [runLoop_next a fuel _ _ hi]
    exact hcalls ▸ runLoop_calls_mono a fuel st1

theorem dispatch_handler_error {W : Type} (a : Agent W) (tool : Str) (targs : List Str)
    (s : RunState W) (h : Handler W) (e : Str) (w2 : W)
    (hsome : a.tools tool = some h) (herr : h targs s.world = (.error e, w2)) :
    dispatch a tool targs s = .next
      ⟨w2, s.round, s.messages ++ [observationMessage (toolErrorText ++ e)],
        s.calls, s.replies, s.invoked ++ [(tool, targs)]⟩ := by
  unfold dispatch executeTool
  rw [hsome]
  simp only [herr]

theorem dispatch_unknown {W : Type} (a : Agent W) (tool : Str) (targs : List Str)
    (s : RunState W) (hnone : a.tools tool = none) :
    dispatch a tool targs s = .next
      ⟨s.world, s.round, s.messages ++ [observationMessage (unknownToolText ++ tool)],
        s.calls, s.replies, s.invoked⟩ := by
  unfold dispatch executeTool
  rw [hnone]
/-! ## Lemmas on the shape of the history -/

theorem transcript_nil (init : List Message) : transcript init [] = init := by
  simp [transcript]

theorem transcript_append (init : List Message) (r1 r2 : List (Str × Str)) :
    transcript init (r1 ++ r2)
      = transcript init r1 ++ r2.flatMap (fun p => [assistantMessage p.1, observationMessage p.2]) := by
  simp [transcript, List.flatMap_append]

theorem transcript_concat (init : List Message) (r : List (Str × Str)) (c o : Str) :
    transcript init (r ++ [(c, o)])
      = transcript init r ++ [assistantMessage c, observationMessage o] := by
  rw [transcript_append]; simp

theorem length_rounds (r : List (Str × Str)) :
    (r.flatMap (fun p => [assistantMessage p.1, observationMessage p.2])).length = 2 * r.length := by
  induction r with
  | nil => rfl
  | cons p r ih => simp only [List.flatMap_cons, List.length_append, List.length_cons,
      List.length_nil, ih]; omega

theorem transcript_length (init : List Message) (r : List (Str × Str)) :
    (transcript init r).length = init.length + 2 * r.length := by
  unfold transcript
  rw [List.length_append, length_rounds]

theorem sentHistories_length (init : List Message) (r : List (Str × Str)) (n : Nat) :
    (sentHistories init r n).length = n := by
  simp [sentHistories]

theorem sentHistories_succ (init : List Message) (r : List (Str × Str)) (n : Nat) :
    sentHistories init r (n + 1) = sentHistories init r n ++ [transcript init (r.take n)] := by
  simp [sentHistories, List.range_succ]

theorem sentHistories_append (init : List Message) (r extra : List (Str × Str)) (n : Nat)
    (h : n ≤ r.length) : sentHistories init (r ++ extra) n = sentHistories init r n := by
  unfold sentHistories
  apply List.map_congr_left
  intro k hk
  have hk2 : k ≤ r.length := by
    have := List.mem_range.1 hk
    omega
  rw [List.take_append_of_le_length hk2]

theorem sentHistories_get (init : List Message) (r : List (Str × Str)) (n k : Nat)
    (h : List Message) (hk : (sentHistories init r n)[k]? = some h) :
    k < n ∧ h = transcript init (r.take k) := by
  unfold sentHistories at hk
  rw [List.getElem?_map] at hk
  cases hr : (List.range n)[k]? with
  | none => simp [hr] at hk
  | some j =>
    rw [hr] at hk
    have hj := List.getElem?_eq_some_iff.1 hr
    obtain ⟨hlt, hval⟩ := hj
    simp only [List.length_range] at hlt
    simp only [List.getElem_range] at hval
    subst hval
    simp only [Option.map_some', Option.some.injEq] at hk
    exact ⟨hlt, hk.symm⟩
theorem loopInv_initial {W : Type} (a : Agent W) (w : W) (round : Nat) (question : Str) :
    LoopInv (initialMessages a w question) (initialState a w round question) :=
  ⟨[], (transcript_nil _).symm, rfl, rfl⟩

theorem loopInv_next {W : Type} (init : List Message) (st st1 : RunState W)
    (hinv : LoopInv init st) (heff : IterationEffect st (.next st1)) : LoopInv init st1 := by
  obtain ⟨rounds, hm, hr, hc⟩ := hinv
  obtain ⟨c, o, hm1, hc1, hr1⟩ := heff
  refine ⟨rounds ++ [(c, o)], ?_, ?_, ?_⟩
  · rw [hm1, hm, transcript_concat]
  · rw [hr1, ← hr]; simp
  · rw [hc1, hc, List.length_append, List.length_singleton, sentHistories_succ,
      sentHistories_append init rounds _ _ (Nat.le_refl _), List.take_left', hm]
    rfl

theorem sentShape_of_loopInv {W : Type} (init : List Message) (st : RunState W)
    (hinv : LoopInv init st) : SentShape init st := by
  obtain ⟨rounds, hm, hr, hc⟩ := hinv
  have hl : st.calls.length = rounds.length := by rw [hc, sentHistories_length]
  refine ⟨rounds, hr ▸ List.prefix_refl _, by omega, ?_⟩
  rw [hl]; exact hc

theorem sentShape_done {W : Type} (init : List Message) (st st1 : RunState W)
    (r : Except RunError Str)
    (hinv : LoopInv init st) (heff : IterationEffect st (.done r st1)) : SentShape init st1 := by
  obtain ⟨rounds, hm, hr, hc⟩ := hinv
  obtain ⟨hc1, hr1⟩ := heff
  have hl : st1.calls.length = rounds.length + 1 := by
    rw [hc1, hc, List.length_append, sentHistories_length]; rfl
  refine ⟨rounds, hr ▸ hr1, by omega, ?_⟩
  rw [hl, sentHistories_succ, List.take_length, ← hm, ← hc]
  exact hc1

theorem runLoop_sentShape {W : Type} (a : Agent W) (init : List Message) (fuel : Nat) :
    ∀ st : RunState W, LoopInv init st → SentShape init (runLoop a fuel st).2 := by
  induction fuel with
  | zero => intro st hinv; exact sentShape_of_loopInv init st hinv
  | succ n ih =>
    intro st hinv
    have h := iteration_effect a st
    cases hi : iteration a st with
    | done r st1 =>
      rw [hi] at h
      rw [runLoop_done a n _ _ _ hi]
      exact sentShape_done init st st1 r hinv h
    | next st1 =>
      rw [hi] at h
      rw [runLoop_next a n _ _ hi]
      exact ih st1 (loopInv_next init st st1 hinv h)

theorem rounds_role (r : List (Str × Str)) : ∀ (i : Nat) (m : Message),
    (r.flatMap (fun p => [assistantMessage p.1, observationMessage p.2]))[i]? = some m →
    m.role = if i % 2 = 0 then Role.assistant else Role.user := by
  induction r with
  | nil => intro i m h; simp at h
  | cons p r ih =>
    intro i m h
    match i, h with
    | 0, h =>
      simp only [List.flatMap_cons, List.cons_append, List.nil_append, List.getElem?_cons_zero,
        Option.some.injEq] at h
      subst h; rfl
    | 1, h =>
      simp only [List.flatMap_cons, List.cons_append, List.nil_append, List.getElem?_cons_succ,
        List.getElem?_cons_zero, Option.some.injEq] at h
      subst h; rfl
    | j + 2, h =>
      simp only [List.flatMap_cons, List.cons_append, List.nil_append,
        List.getElem?_cons_succ] at h
      have := ih j m h
      rw [this]
      have e : (j + 2) % 2 = j % 2 := by omega
      rw [e]

theorem transcript_role (sys q : Message) (hs : sys.role = .system) (hq : q.role = .user)
    (r : List (Str × Str)) (i : Nat) (m : Message)
    (h : (transcript [sys, q] r)[i]? = some m) : m.role = roleAt i := by
  unfold transcript at h
  match i, h with
  | 0, h =>
    simp only [List.cons_append, List.getElem?_cons_zero, Option.some.injEq] at h
    subst h; exact hs
  | 1, h =>
    simp only [List.cons_append, List.getElem?_cons_succ, List.getElem?_cons_zero,
      Option.some.injEq] at h
    subst h; exact hq
  | j + 2, h =>
    simp only [List.cons_append, List.nil_append, List.getElem?_cons_succ] at h
    rw [rounds_role r j m h]
    unfold roleAt
    have e1 : ¬ (j + 2 = 0) := by omega
    rw [if_neg e1]
    by_cases hj : j % 2 = 0
    · have e2 : ¬ ((j + 2) % 2 = 1) := by omega
      rw [if_pos hj, if_neg e2]
    · have e2 : (j + 2) % 2 = 1 := by omega
      rw [if_neg hj, if_pos e2]

theorem transcript_take_prefix (init : List Message) (r : List (Str × Str)) (j k : Nat)
    (hjk : j ≤ k) : transcript init (r.take j) <+: transcript init (r.take k) := by
  have e : r.take k = r.take j ++ (r.take k).drop j := by
    have := List.take_append_drop j (r.take k)
    rw [List.take_take, Nat.min_eq_left hjk] at this
    exact this.symm
  rw [e, transcript_append]
  exact List.prefix_append _ _

/-! ## The claims -/

/-- C1: round trip of `parseToolCall`.  For every tool name that is non-empty,
has no `(` and no leading or trailing whitespace, and every list of strings
`args`, parsing `name(lit₁, lit₂, ...)`, where the `litᵢ` are the JSON string
literals of the arguments joined by `", "`, succeeds and returns exactly
`(name, args)`; in particular `name()` gives the name with no arguments.
Arguments holding `(` or `)` are covered, `args` being arbitrary. -/
theorem C1_parseToolCall_roundtrip (name : Str) (args : List Str)
    (hne : name ≠ []) (hopen : '(' ∉ name) (htrim : trimSpace name = name) :
    parseToolCall
        (name ++ '(' :: (", ".toList.intercalate (args.map jsonStringLiteral) ++ [')']))
      = .ok (name, args)
    ∧ parseToolCall (name ++ ['(', ')']) = .ok (name, []) :=
  ⟨parseToolCall_callPayload name args hne hopen htrim,
   parseToolCall_callPayload name [] hne hopen htrim⟩

/-- C1 at `write_to_file("/tmp/a(1).txt", ...)` with a second argument holding
a quote, a backslash, a line feed, a bell character and both parentheses. -/
theorem C1_parseToolCall_roundtrip_witness :
    ("write_to_file".toList ≠ [] ∧ '(' ∉ "write_to_file".toList
      ∧ trimSpace "write_to_file".toList = "write_to_file".toList)
    ∧ parseToolCall "write_to_file(\"/tmp/a(1).txt\", \"x\\\"y\\\\z\\n\\u0007)(\")".toList
        = .ok ("write_to_file".toList,
            ["/tmp/a(1).txt".toList, ['x', '"', 'y', '\\', 'z', '\n', Char.ofNat 7, ')', '(']]) :=
  ⟨⟨by decide, by decide, by decide⟩,
   (C1_parseToolCall_roundtrip "write_to_file".toList
      ["/tmp/a(1).txt".toList, ['x', '"', 'y', '\\', 'z', '\n', Char.ofNat 7, ')', '(']]
      (by decide) (by decide) (by decide)).1⟩

/-- C2, evaluated where the code departs from the claim: a `null` argument is
not rejected.  `foo(null)` parses to the single argument `""`, and in
`foo(null, 1)` the error names position 2 although the first element that is
not a string literal stands at position 1.  A number, a boolean, an object and
an array are rejected with their positions. -/
theorem C2_null_argument_accepted :
    parseToolCall "foo(null)".toList = .ok ("foo".toList, [[]])
    ∧ parseToolCall "foo(null, 1)".toList
        = .error (.notAString 2 (.mismatch "number".toList))
    ∧ parseToolCall "foo(1, null)".toList
        = .error (.notAString 1 (.mismatch "number".toList))
    ∧ parseToolCall "foo(\"a\", true)".toList
        = .error (.notAString 2 (.mismatch "bool".toList))
    ∧ parseToolCall "foo(\"a\", \"b\", \x7b\"k\": [1, null]\x7d, 2)".toList
        = .error (.notAString 3 (.mismatch "object".toList))
    ∧ parseToolCall "foo([\"a\"])".toList
        = .error (.notAString 1 (.mismatch "array".toList)) := by
  decide

/-- C3 as stated fails: on the reply `<thought>t</thought><action>foo</action>`
the payload `foo` is rejected by `parseToolCall`, and `Run` returns that error
after one model call with the history ending in the reply: no observation is
appended and the second scripted reply is never asked for. -/
theorem C3_parse_error_counterexample :
    (Run scriptedAgent 5 sampleBadWorld 0 "q".toList).1
        = some (.error (.parse (.notACall "foo".toList)))
    ∧ (Run scriptedAgent 5 sampleBadWorld 0 "q".toList).2.messages
        = initialMessages scriptedAgent sampleBadWorld "q".toList
            ++ [assistantMessage sampleBadReply]
    ∧ (Run scriptedAgent 5 sampleBadWorld 0 "q".toList).2.calls.length = 1 := by
  decide

/-- C3, amended: a parse error is fatal.  At any round, if the model's reply
is non-empty, has no `final_answer` pair, and its action payload is rejected by
`parseToolCall` with error `e`, then `Run` returns `e`: the history gains the
reply and nothing else, this round's model call is the last one, and no handler
is invoked. -/
theorem C3_parse_error_is_fatal {W : Type} (a : Agent W) (fuel : Nat) (st : RunState W)
    (w1 : W) (content payload : Str) (more : List Str) (e : ParseError)
    (hreply : a.chat st.messages st.world = (.ok (content :: more), w1))
    (hne : content ≠ [])
    (hfinal : (extractTag content finalAnswerTag).2 = false)
    (haction : extractTag content actionTag = (payload, true))
    (hparse : parseToolCall payload = .error e) :
    (runLoop a (fuel + 1) st).1 = some (.error (.parse e))
    ∧ (runLoop a (fuel + 1) st).2.messages = st.messages ++ [assistantMessage content]
    ∧ (runLoop a (fuel + 1) st).2.calls = st.calls ++ [st.messages]
    ∧ (runLoop a (fuel + 1) st).2.invoked = st.invoked := by
  have hit : iteration a st = .done (.error (.parse e)) (afterReply st content w1) := by
    rw [iteration_reply a st w1 content more hreply hne,
      interpret_parse_error a content payload e _ hfinal haction hparse]
  rw [runLoop_done a fuel _ _ _ hit]
  exact ⟨rfl, rfl, rfl, rfl⟩

/-- C3, amended, at the scripted reply whose action is `foo`. -/
theorem C3_parse_error_is_fatal_witness :
    (scriptedAgent.chat (initialState scriptedAgent sampleBadWorld 0 "q".toList).messages
        (initialState scriptedAgent sampleBadWorld 0 "q".toList).world
        = (.ok [sampleBadReply], ⟨["<final_answer>x</final_answer>".toList], []⟩)
      ∧ sampleBadReply ≠ []
      ∧ (extractTag sampleBadReply finalAnswerTag).2 = false
      ∧ extractTag sampleBadReply actionTag = ("foo".toList, true)
      ∧ parseToolCall "foo".toList = .error (.notACall "foo".toList))
    ∧ (runLoop scriptedAgent 1 (initialState scriptedAgent sampleBadWorld 0 "q".toList)).1
        = some (.error (.parse (.notACall "foo".toList)))
    ∧ (runLoop scriptedAgent 1 (initialState scriptedAgent sampleBadWorld 0 "q".toList)).2.messages
        = (initialState scriptedAgent sampleBadWorld 0 "q".toList).messages
            ++ [assistantMessage sampleBadReply]
    ∧ (runLoop scriptedAgent 1 (initialState scriptedAgent sampleBadWorld 0 "q".toList)).2.calls
        = (initialState scriptedAgent sampleBadWorld 0 "q".toList).calls
            ++ [(initialState scriptedAgent sampleBadWorld 0 "q".toList).messages]
    ∧ (runLoop scriptedAgent 1 (initialState scriptedAgent sampleBadWorld 0 "q".toList)).2.invoked
        = (initialState scriptedAgent sampleBadWorld 0 "q".toList).invoked :=
  ⟨⟨rfl, by decide, by decide, by decide, by decide⟩,
   C3_parse_error_is_fatal scriptedAgent 0 (initialState scriptedAgent sampleBadWorld 0 "q".toList)
     ⟨["<final_answer>x</final_answer>".toList], []⟩ sampleBadReply "foo".toList []
     (.notACall "foo".toList) rfl (by decide) (by decide) (by decide) (by decide)⟩

/-- C4 as stated fails: for the payload `foo("a\nb")`, with backslash and `n`
between the quotes, `parseToolCall` does not return the four characters
`a`, backslash, `n`, `b`. -/
theorem C4_parser_unescapes_counterexample :
    parseToolCall "foo(\"a\\nb\")".toList ≠ .ok ("foo".toList, [['a', '\\', 'n', 'b']]) := by
  decide

/-- C4, amended: `parseToolCall` on `foo("a\nb")` returns the name `foo` and
exactly one argument, the three characters `a`, line feed, `b`: the JSON decoder
of the parser unescapes `\n`.  The `write_to_file` handler writes that content
unchanged; its own replacement acts on a backslash-`n` pair that reaches it,
as after the payload `foo("p", "a\\nb")` with a doubled backslash. -/
theorem C4_parser_unescapes :
    parseToolCall "foo(\"a\\nb\")".toList = .ok ("foo".toList, [['a', '\n', 'b']])
    ∧ writeFileRequest ["p".toList, ['a', '\n', 'b']] = .ok ("p".toList, ['a', '\n', 'b'])
    ∧ parseToolCall "foo(\"p\", \"a\\\\nb\")".toList
        = .ok ("foo".toList, ["p".toList, ['a', '\\', 'n', 'b']])
    ∧ writeFileRequest ["p".toList, ['a', '\\', 'n', 'b']]
        = .ok ("p".toList, ['a', '\n', 'b']) := by
  decide

/-- C5: leftmost-match contract of `extractTag`.  For a tag name of letters and
underscores, `extractTag` reports found exactly when the text holds `<tag>` with
a `</tag>` starting at or after its end.  When found, the text splits around the
first `<tag>` (no occurrence starts earlier) and the first `</tag>` after it (no
occurrence starts earlier in what follows), and the result is the trimmed text
between them, line breaks included; any such split gives the result, so later
occurrences play no part.  When not found the result is the empty string. -/
theorem C5_extractTag_leftmost (text tag : Str) (htag : tagOK tag = true) :
    ((extractTag text tag).2 = true
        ↔ ∃ pre mid post, text = pre ++ openTag tag ++ mid ++ closeTag tag ++ post)
    ∧ ((extractTag text tag).2 = true →
        ∃ pre mid post, text = pre ++ openTag tag ++ mid ++ closeTag tag ++ post
          ∧ ¬ openTag tag <:+: pre ++ (openTag tag).dropLast
          ∧ ¬ closeTag tag <:+: mid ++ (closeTag tag).dropLast
          ∧ extractTag text tag = (trimSpace mid, true))
    ∧ (∀ pre mid post, text = pre ++ openTag tag ++ mid ++ closeTag tag ++ post →
          ¬ openTag tag <:+: pre ++ (openTag tag).dropLast →
          ¬ closeTag tag <:+: mid ++ (closeTag tag).dropLast →
          extractTag text tag = (trimSpace mid, true))
    ∧ ((extractTag text tag).2 = false → extractTag text tag = ([], false)) := by
  have _ := htag
  refine ⟨extractTag_found_iff text tag, ?_, ?_, extractTag_not_found text tag⟩
  · intro h
    cases hf : findSubmatch (openTag tag) (closeTag tag) text with
    | none => simp [extractTag, hf] at h
    | some g =>
      obtain ⟨pre, post, hdec, h1, h2⟩ :=
        findSubmatch_leftmost _ _ (openTag_ne_nil tag) (closeTag_ne_nil tag) text g hf
      exact ⟨pre, g, post, hdec, h1, h2, extractTag_first text tag pre g post hdec h1 h2⟩
  · intro pre mid post hdec h1 h2
    exact extractTag_first text tag pre mid post hdec h1 h2

/-- C5 at a reply with two `<thought>` pairs, the first spanning a line break. -/
theorem C5_extractTag_leftmost_witness :
    tagOK "thought".toList = true
    ∧ extractTag "ok <thought> a\nb </thought><thought>c</thought>".toList "thought".toList
        = (['a', '\n', 'b'], true) :=
  ⟨by decide,
   (C5_extractTag_leftmost "ok <thought> a\nb </thought><thought>c</thought>".toList
      "thought".toList (by decide)).2.2.1 "ok ".toList " a\nb ".toList "<thought>c</thought>".toList
      (by decide) (by decide) (by decide)⟩

/-- C6: characterisation of `validateToolCall`.  Any tool name other than
`query_database` passes whatever the arguments.  For `query_database` the
call passes exactly when there are two arguments, the trimmed first one is
non-empty, is not `your_dsn_here` under `strings.EqualFold`, starts with `dm://`
after `strings.ToLower` and holds `@`, and the trimmed second one is non-empty.
A call whose first argument is `your_dsn_here` is rejected whatever follows. -/
theorem C6_validateToolCall_characterisation (U : CaseTables) (toolName : Str)
    (args : List Str) :
    (toolName ≠ queryDatabase → validateToolCall U toolName args = none)
    ∧ (validateToolCall U queryDatabase args = none
        ↔ ∃ a0 a1, args = [a0, a1]
            ∧ trimSpace a0 ≠ []
            ∧ equalFold U (trimSpace a0) dsnPlaceholder = false
            ∧ dmScheme <+: toLower U (trimSpace a0)
            ∧ '@' ∈ trimSpace a0
            ∧ trimSpace a1 ≠ [])
    ∧ (∀ rest, validateToolCall U queryDatabase (dsnPlaceholder :: rest) ≠ none)
    ∧ queryDatabase = "query_database".toList
    ∧ dsnPlaceholder = "your_dsn_here".toList
    ∧ dmScheme = "dm://".toList := by
  refine ⟨fun h => by unfold validateToolCall; rw [if_neg h], ?_, ?_, rfl, rfl, rfl⟩
  · constructor
    · intro h
      match args, h with
      | [a0, a1], h =>
        refine ⟨a0, a1, rfl, ?_⟩
        unfold validateToolCall at h
        rw [if_pos rfl] at h
        simp only at h
        split_ifs at h with h1 h2 h3 h4
        push_neg at h1
        refine ⟨h1.1, by simpa using h1.2, ?_, by simpa using h3, h4⟩
        rw [← isPrefixOf_iff]; simpa using h2
      | [], h => simp [validateToolCall] at h
      | [_], h => simp [validateToolCall] at h
      | _ :: _ :: _ :: _, h => simp [validateToolCall] at h
    · rintro ⟨a0, a1, rfl, h1, h2, h3, h4, h5⟩
      have h3b : dmScheme.isPrefixOf (toLower U (trimSpace a0)) = true := by
        rw [isPrefixOf_iff]; exact h3
      have h12 : ¬ (trimSpace a0 = [] ∨ equalFold U (trimSpace a0) dsnPlaceholder = true) := by
        rw [h2]; simp [h1]
      unfold validateToolCall
      rw [if_pos rfl]
      simp only
      rw [if_neg h12, if_neg (by simp [h3b]), if_neg (by simp [h4]), if_neg h5]
  · intro rest
    have htrim : trimSpace dsnPlaceholder = dsnPlaceholder := by decide
    have hfold : equalFold U (trimSpace dsnPlaceholder) dsnPlaceholder = true := by
      rw [htrim]; exact equalFold_self U _
    unfold validateToolCall
    rw [if_pos rfl]
    match rest with
    | [a1] => simp only; rw [if_pos (Or.inr hfold)]; simp
    | [] => simp
    | _ :: _ :: _ => simp

/-- C7: a final answer short-circuits `Run`.  If the first model reply is
non-empty and holds a `<final_answer>...</final_answer>` pair, then with `A` the
text between the first `<final_answer>` and the first `</final_answer>` after
it, `Run` returns `A` trimmed and no error after exactly one model call: the
history is the two initial messages and the reply, no observation was appended
and no handler was invoked, whatever else (an `<action>` tag included) the reply
holds. -/
theorem C7_final_answer_short_circuits {W : Type} (a : Agent W) (fuel : Nat) (w w1 : W)
    (round : Nat) (question content : Str) (more : List Str)
    (hreply : a.chat (initialMessages a w question) w = (.ok (content :: more), w1))
    (hne : content ≠ [])
    (hpair : ∃ pre mid post,
      content = pre ++ openTag finalAnswerTag ++ mid ++ closeTag finalAnswerTag ++ post) :
    ∃ pre A post,
      content = pre ++ openTag finalAnswerTag ++ A ++ closeTag finalAnswerTag ++ post
      ∧ ¬ openTag finalAnswerTag <:+: pre ++ (openTag finalAnswerTag).dropLast
      ∧ ¬ closeTag finalAnswerTag <:+: A ++ (closeTag finalAnswerTag).dropLast
      ∧ (Run a (fuel + 1) w round question).1 = some (.ok (trimSpace A))
      ∧ (Run a (fuel + 1) w round question).2.calls = [initialMessages a w question]
      ∧ (Run a (fuel + 1) w round question).2.replies = [content]
      ∧ (Run a (fuel + 1) w round question).2.messages
          = initialMessages a w question ++ [assistantMessage content]
      ∧ (Run a (fuel + 1) w round question).2.invoked = [] := by
  have hfound := (extractTag_found_iff content finalAnswerTag).2 hpair
  cases hf : findSubmatch (openTag finalAnswerTag) (closeTag finalAnswerTag) content with
  | none => simp [extractTag, hf] at hfound
  | some g =>
    obtain ⟨pre, post, hdec, h1, h2⟩ := findSubmatch_leftmost _ _
      (openTag_ne_nil finalAnswerTag) (closeTag_ne_nil finalAnswerTag) content g hf
    have hx := extractTag_first content finalAnswerTag pre g post hdec h1 h2
    have hit : iteration a (initialState a w round question)
        = .done (.ok (trimSpace g)) (afterReply (initialState a w round question) content w1) := by
      rw [iteration_reply a _ w1 content more hreply hne, interpret_final a content _ _ hx,
        trimSpace_idem]
    have hrun := runLoop_done a fuel _ _ _ hit
    refine ⟨pre, g, post, hdec, h1, h2, ?_, ?_, ?_, ?_, ?_⟩
    · simp only [Run, hrun]
    all_goals (simp only [Run, hrun]; rfl)

/-- C7 at a reply that holds an action as well as a final answer: `Run` returns
the trimmed answer after one model call and invokes nothing. -/
theorem C7_final_answer_short_circuits_witness :
    (scriptedAgent.chat (initialMessages scriptedAgent sampleFinalWorld "q".toList)
        sampleFinalWorld = (.ok [sampleFinalReply], ⟨[], []⟩)
      ∧ sampleFinalReply ≠ []
      ∧ ∃ pre mid post, sampleFinalReply
          = pre ++ openTag finalAnswerTag ++ mid ++ closeTag finalAnswerTag ++ post)
    ∧ ∃ pre A post,
      sampleFinalReply = pre ++ openTag finalAnswerTag ++ A ++ closeTag finalAnswerTag ++ post
      ∧ ¬ openTag finalAnswerTag <:+: pre ++ (openTag finalAnswerTag).dropLast
      ∧ ¬ closeTag finalAnswerTag <:+: A ++ (closeTag finalAnswerTag).dropLast
      ∧ (Run scriptedAgent 1 sampleFinalWorld 0 "q".toList).1 = some (.ok (trimSpace A))
      ∧ (Run scriptedAgent 1 sampleFinalWorld 0 "q".toList).2.calls
          = [initialMessages scriptedAgent sampleFinalWorld "q".toList]
      ∧ (Run scriptedAgent 1 sampleFinalWorld 0 "q".toList).2.replies = [sampleFinalReply]
      ∧ (Run scriptedAgent 1 sampleFinalWorld 0 "q".toList).2.messages
          = initialMessages scriptedAgent sampleFinalWorld "q".toList
            ++ [assistantMessage sampleFinalReply]
      ∧ (Run scriptedAgent 1 sampleFinalWorld 0 "q".toList).2.invoked = [] :=
  ⟨⟨rfl, by decide, "<action>echo(\"x\")</action>".toList, " 42 ".toList, [], by decide⟩,
   C7_final_answer_short_circuits scriptedAgent 0 sampleFinalWorld ⟨[], []⟩ 0
     "q".toList sampleFinalReply [] rfl (by decide)
     ⟨"<action>echo(\"x\")</action>".toList, " 42 ".toList, [], by decide⟩⟩

/-- C8: dispatch failures never abort `Run`.  At any round, let the model's
reply be non-empty, have no `final_answer` pair and have an action that parses
to `(name, args)`.  If `name` is neither `run_terminal_command` nor
`query_database` and is not in the registry, the round does not return: it
appends the reply as an assistant message and the user message with the text
`<observation>未知工具: name</observation>`, invokes no handler, and the loop
goes on to a model call with that history.  If `name` is registered and its
handler reports error `e`, the round appends the user message with the text
`<observation>工具执行错误: e</observation>` and the loop goes on to a model call
with that history: for every name that passes validation and is not
`run_terminal_command`, and for `run_terminal_command` after the operator has
answered `y`.  At the dispatch step itself, every handler error becomes that
observation. -/
theorem C8_dispatch_failures_do_not_abort {W : Type} (a : Agent W) (fuel : Nat)
    (st : RunState W) (w1 : W) (content payload name : Str) (more : List Str)
    (args : List Str)
    (hreply : a.chat st.messages st.world = (.ok (content :: more), w1))
    (hne : content ≠ [])
    (hfinal : (extractTag content "final_answer".toList).2 = false)
    (haction : extractTag content "action".toList = (payload, true))
    (hparse : parseToolCall payload = .ok (name, args)) :
    (name ≠ "run_terminal_command".toList → name ≠ "query_database".toList →
      a.tools name = none →
        iteration a st = .next
          ⟨w1, st.round + 1,
            st.messages ++ [⟨.assistant, content⟩,
              ⟨.user, "<observation>".toList ++ ("未知工具: ".toList ++ name)
                ++ "</observation>".toList⟩],
            st.calls ++ [st.messages], st.replies ++ [content], st.invoked⟩
        ∧ runLoop a (fuel + 1) st = runLoop a fuel
          ⟨w1, st.round + 1,
            st.messages ++ [⟨.assistant, content⟩,
              ⟨.user, "<observation>".toList ++ ("未知工具: ".toList ++ name)
                ++ "</observation>".toList⟩],
            st.calls ++ [st.messages], st.replies ++ [content], st.invoked⟩
        ∧ st.calls ++ [st.messages,
            st.messages ++ [⟨.assistant, content⟩,
              ⟨.user, "<observation>".toList ++ ("未知工具: ".toList ++ name)
                ++ "</observation>".toList⟩]]
          <+: (runLoop a (fuel + 2) st).2.calls)
    ∧ (∀ (h : Handler W) (e : Str) (w2 : W),
        name ≠ "run_terminal_command".toList →
        validateToolCall a.tables name args = none →
        a.tools name = some h → h args w1 = (.error e, w2) →
        iteration a st = .next
          ⟨w2, st.round + 1,
            st.messages ++ [⟨.assistant, content⟩,
              ⟨.user, "<observation>".toList ++ ("工具执行错误: ".toList ++ e)
                ++ "</observation>".toList⟩],
            st.calls ++ [st.messages], st.replies ++ [content], st.invoked ++ [(name, args)]⟩
        ∧ runLoop a (fuel + 1) st = runLoop a fuel
          ⟨w2, st.round + 1,
            st.messages ++ [⟨.assistant, content⟩,
              ⟨.user, "<observation>".toList ++ ("工具执行错误: ".toList ++ e)
                ++ "</observation>".toList⟩],
            st.calls ++ [st.messages], st.replies ++ [content], st.invoked ++ [(name, args)]⟩
        ∧ st.calls ++ [st.messages,
            st.messages ++ [⟨.assistant, content⟩,
              ⟨.user, "<observation>".toList ++ ("工具执行错误: ".toList ++ e)
                ++ "</observation>".toList⟩]]
          <+: (runLoop a (fuel + 2) st).2.calls)
    ∧ (∀ (h : Handler W) (e input : Str) (w2 w3 : W),
        name = "run_terminal_command".toList →
        a.readString w1 = (.ok input, w2) →
        equalFold a.tables (trimSpace input) "y".toList = true →
        a.tools name = some h → h args w2 = (.error e, w3) →
        iteration a st = .next
          ⟨w3, st.round + 1,
            st.messages ++ [⟨.assistant, content⟩,
              ⟨.user, "<observation>".toList ++ ("工具执行错误: ".toList ++ e)
                ++ "</observation>".toList⟩],
            st.calls ++ [st.messages], st.replies ++ [content], st.invoked ++ [(name, args)]⟩
        ∧ runLoop a (fuel + 1) st = runLoop a fuel
          ⟨w3, st.round + 1,
            st.messages ++ [⟨.assistant, content⟩,
              ⟨.user, "<observation>".toList ++ ("工具执行错误: ".toList ++ e)
                ++ "</observation>".toList⟩],
            st.calls ++ [st.messages], st.replies ++ [content], st.invoked ++ [(name, args)]⟩
        ∧ st.calls ++ [st.messages,
            st.messages ++ [⟨.assistant, content⟩,
              ⟨.user, "<observation>".toList ++ ("工具执行错误: ".toList ++ e)
                ++ "</observation>".toList⟩]]
          <+: (runLoop a (fuel + 2) st).2.calls)
    ∧ (∀ (tool : Str) (targs : List Str) (s : RunState W) (h : Handler W) (e : Str) (w2 : W),
        a.tools tool = some h → h targs s.world = (.error e, w2) →
        dispatch a tool targs s = .next
          ⟨w2, s.round,
            s.messages ++ [⟨.user, "<observation>".toList ++ ("工具执行错误: ".toList ++ e)
              ++ "</observation>".toList⟩],
            s.calls, s.replies, s.invoked ++ [(tool, targs)]⟩) := by
  have hiter0 := iteration_reply a st w1 content more hreply hne
  have hgo : ∀ (s1 : RunState W), iteration a st = .next s1 →
      st.calls ++ [st.messages] = s1.calls →
        st.calls ++ [st.messages, s1.messages] <+: (runLoop a (fuel + 2) st).2.calls := by
    intro s1 hit hc
    rw [runLoop_next a (fuel + 1) _ _ hit]
    have := runLoop_calls_first a fuel s1
    rw [← hc] at this
    simpa using this
  refine ⟨?_, ?_, ?_, ?_⟩
  · intro hrtc0 hqd0 hnone
    have hrtc : name ≠ runTerminalCommand := hrtc0
    have hqd : name ≠ queryDatabase := hqd0
    have hvalid := validateToolCall_other a.tables name args hqd
    have hint := interpret_call a content payload name args (afterReply st content w1)
      hfinal haction hparse hvalid
    rw [if_neg hrtc] at hint
    have hd := dispatch_unknown a name args (afterReply st content w1) hnone
    have hit : iteration a st = .next
        ⟨w1, st.round + 1,
          st.messages ++ [assistantMessage content, observationMessage (unknownToolText ++ name)],
          st.calls ++ [st.messages], st.replies ++ [content], st.invoked⟩ := by
      rw [hiter0, hint, hd]
      simp [afterReply]
    exact ⟨hit, runLoop_next a fuel _ _ hit, hgo _ hit rfl⟩
  · intro h e w2 hrtc0 hvalid hsome herr
    have hrtc : name ≠ runTerminalCommand := hrtc0
    have hint := interpret_call a content payload name args (afterReply st content w1)
      hfinal haction hparse hvalid
    rw [if_neg hrtc] at hint
    have hd := dispatch_handler_error a name args (afterReply st content w1) h e w2 hsome herr
    have hit : iteration a st = .next
        ⟨w2, st.round + 1,
          st.messages ++ [assistantMessage content, observationMessage (toolErrorText ++ e)],
          st.calls ++ [st.messages], st.replies ++ [content], st.invoked ++ [(name, args)]⟩ := by
      rw [hiter0, hint, hd]
      simp [afterReply]
    exact ⟨hit, runLoop_next a fuel _ _ hit, hgo _ hit rfl⟩
  · intro h e input w2 w3 hname0 hread hyes0 hsome herr
    have hname : name = runTerminalCommand := hname0
    have hyes : equalFold a.tables (trimSpace input) yes = true := hyes0
    have hqd : name ≠ queryDatabase := by
      rw [hname]; exact runTerminalCommand_ne_queryDatabase
    have hvalid := validateToolCall_other a.tables name args hqd
    have hint := interpret_call a content payload name args (afterReply st content w1)
      hfinal haction hparse hvalid
    rw [if_pos hname] at hint
    have hc : confirmInteractiveTool a (afterReply st content w1).world = (.ok true, w2) := by
      rw [← hyes]; exact confirm_read_ok a w1 w2 input hread
    rw [hc] at hint
    have hd := dispatch_handler_error a name args
      { afterReply st content w1 with world := w2 } h e w3 hsome herr
    have hit : iteration a st = .next
        ⟨w3, st.round + 1,
          st.messages ++ [assistantMessage content, observationMessage (toolErrorText ++ e)],
          st.calls ++ [st.messages], st.replies ++ [content], st.invoked ++ [(name, args)]⟩ := by
      rw [hiter0, hint]
      simp only
      rw [hd]
      simp [afterReply]
    exact ⟨hit, runLoop_next a fuel _ _ hit, hgo _ hit rfl⟩
  · intro tool targs s h e w2 hsome herr
    exact dispatch_handler_error a tool targs s h e w2 hsome herr

/-- C8 at the scripted reply `<thought>T</thought><action>unknown_tool("x")</action>`:
the loop goes on to a second model call whose history ends with the user
message `<observation>未知工具: unknown_tool</observation>`. -/
theorem C8_dispatch_failures_do_not_abort_witness :
    (scriptedAgent.chat (initialState scriptedAgent sampleUnknownWorld 0 "q".toList).messages
        (initialState scriptedAgent sampleUnknownWorld 0 "q".toList).world
        = (.ok [sampleUnknownReply], ⟨["<final_answer>x</final_answer>".toList], []⟩)
      ∧ sampleUnknownReply ≠ []
      ∧ (extractTag sampleUnknownReply "final_answer".toList).2 = false
      ∧ extractTag sampleUnknownReply "action".toList = ("unknown_tool(\"x\")".toList, true)
      ∧ parseToolCall "unknown_tool(\"x\")".toList = .ok ("unknown_tool".toList, ["x".toList])
      ∧ "unknown_tool".toList ≠ "run_terminal_command".toList
      ∧ "unknown_tool".toList ≠ "query_database".toList
      ∧ scriptedAgent.tools "unknown_tool".toList = none)
    ∧ (initialState scriptedAgent sampleUnknownWorld 0 "q".toList).calls
        ++ [(initialState scriptedAgent sampleUnknownWorld 0 "q".toList).messages,
            (initialState scriptedAgent sampleUnknownWorld 0 "q".toList).messages
              ++ [⟨.assistant, sampleUnknownReply⟩,
                  ⟨.user, "<observation>".toList ++ ("未知工具: ".toList ++ "unknown_tool".toList)
                    ++ "</observation>".toList⟩]]
        <+: (runLoop scriptedAgent 2
              (initialState scriptedAgent sampleUnknownWorld 0 "q".toList)).2.calls :=
  ⟨⟨rfl, by decide, by decide, by decide, by decide, by decide, by decide, rfl⟩,
   ((C8_dispatch_failures_do_not_abort scriptedAgent 0
      (initialState scriptedAgent sampleUnknownWorld 0 "q".toList)
      ⟨["<final_answer>x</final_answer>".toList], []⟩ sampleUnknownReply
      "unknown_tool(\"x\")".toList "unknown_tool".toList [] ["x".toList]
      rfl (by decide) (by decide) (by decide) (by decide)).1
      (by decide) (by decide) rfl).2.2⟩

/-- C9: a declined confirmation is fatal and has no side effect.  At any round,
if the model's reply is non-empty, has no `final_answer` pair and its action
parses to the tool `run_terminal_command`, then: when the operator's line,
trimmed, is not `y` under `strings.EqualFold`, `Run` returns the cancellation
error; when reading the line fails, `Run` returns that error.  Either way the
history gains the reply and no observation, this round's model call is the last
one, and no handler is invoked. -/
theorem C9_declined_confirmation_is_fatal {W : Type} (a : Agent W) (fuel : Nat)
    (st : RunState W) (w1 : W) (content payload : Str) (more : List Str) (args : List Str)
    (hreply : a.chat st.messages st.world = (.ok (content :: more), w1))
    (hne : content ≠ [])
    (hfinal : (extractTag content finalAnswerTag).2 = false)
    (haction : extractTag content actionTag = (payload, true))
    (hparse : parseToolCall payload = .ok (runTerminalCommand, args)) :
    (∀ (input : Str) (w2 : W), a.readString w1 = (.ok input, w2) →
        equalFold a.tables (trimSpace input) yes = false →
        (runLoop a (fuel + 1) st).1 = some (.error .cancelled)
        ∧ (runLoop a (fuel + 1) st).2.messages = st.messages ++ [assistantMessage content]
        ∧ (runLoop a (fuel + 1) st).2.calls = st.calls ++ [st.messages]
        ∧ (runLoop a (fuel + 1) st).2.invoked = st.invoked)
    ∧ (∀ (e : Str) (w2 : W), a.readString w1 = (.error e, w2) →
        (runLoop a (fuel + 1) st).1 = some (.error (.readInput e))
        ∧ (runLoop a (fuel + 1) st).2.messages = st.messages ++ [assistantMessage content]
        ∧ (runLoop a (fuel + 1) st).2.calls = st.calls ++ [st.messages]
        ∧ (runLoop a (fuel + 1) st).2.invoked = st.invoked)
    ∧ runTerminalCommand = "run_terminal_command".toList
    ∧ yes = "y".toList := by
  have hvalid := validateToolCall_other a.tables runTerminalCommand args
    runTerminalCommand_ne_queryDatabase
  have hint := interpret_call a content payload runTerminalCommand args (afterReply st content w1)
    hfinal haction hparse hvalid
  rw [if_pos rfl] at hint
  have hiter := iteration_reply a st w1 content more hreply hne
  refine ⟨?_, ?_, rfl, rfl⟩
  · intro input w2 hread hno
    have hc : confirmInteractiveTool a (afterReply st content w1).world = (.ok false, w2) := by
      rw [← hno]; exact confirm_read_ok a w1 w2 input hread
    rw [hc] at hint
    rw [runLoop_done a fuel _ _ _ (hiter.trans hint)]
    exact ⟨rfl, rfl, rfl, rfl⟩
  · intro e w2 hread
    have hc : confirmInteractiveTool a (afterReply st content w1).world
        = (.error (.readInput e), w2) := confirm_read_error a w1 w2 e hread
    rw [hc] at hint
    rw [runLoop_done a fuel _ _ _ (hiter.trans hint)]
    exact ⟨rfl, rfl, rfl, rfl⟩

/-- C9 at a scripted reply asking for `run_terminal_command("ls")` with the
operator typing `n`: the run is cancelled and the second reply is never asked
for. -/
theorem C9_declined_confirmation_is_fatal_witness :
    (scriptedAgent.chat (initialState scriptedAgent sampleDeclineWorld 0 "q".toList).messages
        (initialState scriptedAgent sampleDeclineWorld 0 "q".toList).world
        = (.ok [sampleCommandReply],
            ⟨["<final_answer>x</final_answer>".toList], [" n\n".toList]⟩)
      ∧ sampleCommandReply ≠ []
      ∧ (extractTag sampleCommandReply finalAnswerTag).2 = false
      ∧ extractTag sampleCommandReply actionTag = ("run_terminal_command(\"ls\")".toList, true)
      ∧ parseToolCall "run_terminal_command(\"ls\")".toList
          = .ok (runTerminalCommand, ["ls".toList])
      ∧ scriptedAgent.readString ⟨["<final_answer>x</final_answer>".toList], [" n\n".toList]⟩
          = (.ok " n\n".toList, ⟨["<final_answer>x</final_answer>".toList], []⟩)
      ∧ equalFold scriptedAgent.tables (trimSpace " n\n".toList) yes = false)
    ∧ (runLoop scriptedAgent 3 (initialState scriptedAgent sampleDeclineWorld 0 "q".toList)).1
        = some (.error .cancelled)
    ∧ (runLoop scriptedAgent 3
        (initialState scriptedAgent sampleDeclineWorld 0 "q".toList)).2.messages
        = (initialState scriptedAgent sampleDeclineWorld 0 "q".toList).messages
            ++ [assistantMessage sampleCommandReply]
    ∧ (runLoop scriptedAgent 3 (initialState scriptedAgent sampleDeclineWorld 0 "q".toList)).2.calls
        = (initialState scriptedAgent sampleDeclineWorld 0 "q".toList).calls
            ++ [(initialState scriptedAgent sampleDeclineWorld 0 "q".toList).messages]
    ∧ (runLoop scriptedAgent 3
        (initialState scriptedAgent sampleDeclineWorld 0 "q".toList)).2.invoked
        = (initialState scriptedAgent sampleDeclineWorld 0 "q".toList).invoked :=
  ⟨⟨rfl, by decide, by decide, by decide, by decide, rfl, by decide⟩,
   (C9_declined_confirmation_is_fatal scriptedAgent 2
      (initialState scriptedAgent sampleDeclineWorld 0 "q".toList)
      ⟨["<final_answer>x</final_answer>".toList], [" n\n".toList]⟩ sampleCommandReply
      "run_terminal_command(\"ls\")".toList [] ["ls".toList]
      rfl (by decide) (by decide) (by decide) (by decide)).1
      " n\n".toList ⟨["<final_answer>x</final_answer>".toList], []⟩ rfl (by decide)⟩

/-- C10: history shape invariant of `Run`.  However long `Run` is followed,
there is a list of finished rounds (reply, observation), the replies being the
first model replies received in order, such that the history sent at model call
number `k + 1` is: the system message with the rendered prompt, the user message
with the text `<question>q</question>`, then for each of the first `k` rounds
the reply unchanged as an assistant message and the text
`<observation>...</observation>` as a user message.  So that history has exactly
`2 (k + 1)` messages, its roles are system then user and assistant in turn, it
ends with a user message, no two assistant messages are adjacent, and every
history sent earlier is a prefix of it.  The first history sent is the two
initial messages.  At every round the reply received from the model is what is
recorded and appended, unchanged, as the assistant message, and a round that
goes on appends exactly one observation after it. -/
theorem C10_history_shape {W : Type} (a : Agent W) (fuel : Nat) (w : W) (round : Nat)
    (question : Str) :
    (0 < fuel →
      [[(⟨.system, a.renderSystemPrompt w⟩ : Message),
        ⟨.user, "<question>".toList ++ question ++ "</question>".toList⟩]]
        <+: (Run a fuel w round question).2.calls)
    ∧ (∃ rounds : List (Str × Str),
      rounds.map Prod.fst <+: (Run a fuel w round question).2.replies
      ∧ ∀ (k : Nat) (h : List Message),
          (Run a fuel w round question).2.calls[k]? = some h →
          k ≤ rounds.length
          ∧ h = [(⟨.system, a.renderSystemPrompt w⟩ : Message),
                  ⟨.user, "<question>".toList ++ question ++ "</question>".toList⟩]
                ++ (rounds.take k).flatMap (fun p =>
                    [(⟨.assistant, p.1⟩ : Message),
                     ⟨.user, "<observation>".toList ++ p.2 ++ "</observation>".toList⟩])
          ∧ h.length = 2 * (k + 1)
          ∧ (∀ (i : Nat) (m : Message), h[i]? = some m →
              m.role = if i = 0 then Role.system
                       else if i % 2 = 1 then Role.user else Role.assistant)
          ∧ (∃ m, h.getLast? = some m ∧ m.role = .user)
          ∧ (∀ (i : Nat) (m1 m2 : Message), h[i]? = some m1 → h[i + 1]? = some m2 →
              ¬ (m1.role = .assistant ∧ m2.role = .assistant))
          ∧ (∀ (j : Nat) (h0 : List Message), j ≤ k →
              (Run a fuel w round question).2.calls[j]? = some h0 → h0 <+: h))
    ∧ (∀ (st : RunState W) (content : Str) (more : List Str) (w1 : W),
        a.chat st.messages st.world = (.ok (content :: more), w1) → content ≠ [] →
        (∀ (r : Except RunError Str) (s : RunState W), iteration a st = .done r s →
            s.replies = st.replies ++ [content]
            ∧ s.calls = st.calls ++ [st.messages]
            ∧ s.messages = st.messages ++ [⟨.assistant, content⟩])
        ∧ (∀ (s : RunState W), iteration a st = .next s →
            s.replies = st.replies ++ [content]
            ∧ s.calls = st.calls ++ [st.messages]
            ∧ ∃ o, s.messages = st.messages ++ [⟨.assistant, content⟩,
                ⟨.user, "<observation>".toList ++ o ++ "</observation>".toList⟩])) := by
  refine ⟨fun hf => ?_, ?_, ?_⟩
  · obtain ⟨n, rfl⟩ := Nat.exists_eq_succ_of_ne_zero (Nat.pos_iff_ne_zero.1 hf)
    exact runLoop_calls_first a n (initialState a w round question)
  rotate_left
  · intro st content more w1 hreply hne
    have hit := iteration_reply a st w1 content more hreply hne
    have heff := interpret_effect a content (afterReply st content w1)
    constructor
    · intro r s hs
      rw [hit] at hs
      rw [hs] at heff
      obtain ⟨hm, hc, hr⟩ := heff
      exact ⟨hr, hc, hm⟩
    · intro s hs
      rw [hit] at hs
      rw [hs] at heff
      obtain ⟨o, hm, hc, hr⟩ := heff
      exact ⟨hr, hc, o, by rw [hm]; simp [afterReply, observationMessage, userMessage,
        assistantMessage]⟩
  obtain ⟨rounds, hpre, hlen, hcalls⟩ :=
    runLoop_sentShape a (initialMessages a w question) fuel _
      (loopInv_initial a w round question)
  refine ⟨rounds, hpre, ?_⟩
  intro k h hk
  have hget : ∀ (j : Nat) (h0 : List Message),
      (Run a fuel w round question).2.calls[j]? = some h0 →
      j ≤ rounds.length ∧ h0 = transcript (initialMessages a w question) (rounds.take j) := by
    intro j h0 hj
    unfold Run at hj
    rw [hcalls] at hj
    obtain ⟨hlt, hh⟩ := sentHistories_get _ _ _ _ _ hj
    exact ⟨by omega, hh⟩
  obtain ⟨hkl, hh⟩ := hget k h hk
  have hlength : h.length = 2 * (k + 1) := by
    rw [hh, transcript_length, List.length_take, Nat.min_eq_left hkl]
    simp only [initialMessages, List.length_cons, List.length_nil]
    omega
  have hroles : ∀ (i : Nat) (m : Message), h[i]? = some m → m.role = roleAt i := by
    intro i m hi
    rw [hh] at hi
    exact transcript_role _ _ rfl rfl _ i m hi
  have hroles2 : ∀ (i : Nat) (m : Message), h[i]? = some m →
      m.role = if i = 0 then Role.system
               else if i % 2 = 1 then Role.user else Role.assistant := hroles
  refine ⟨hkl, hh, hlength, hroles2, ?_, ?_, ?_⟩
  · have hlt : 2 * k + 1 < h.length := by omega
    refine ⟨h[2 * k + 1], ?_, ?_⟩
    · rw [List.getLast?_eq_getElem?, hlength]
      have e : 2 * (k + 1) - 1 = 2 * k + 1 := by omega
      rw [e]
      exact List.getElem?_eq_getElem hlt
    · rw [hroles (2 * k + 1) _ (List.getElem?_eq_getElem hlt)]
      unfold roleAt
      have e1 : ¬ (2 * k + 1 = 0) := by omega
      have e2 : (2 * k + 1) % 2 = 1 := by omega
      rw [if_neg e1, if_pos e2]
  · intro i m1 m2 h1 h2 hboth
    have r1 := hroles i m1 h1
    have r2 := hroles (i + 1) m2 h2
    rw [hboth.1] at r1
    rw [hboth.2] at r2
    unfold roleAt at r1 r2
    by_cases hi : i % 2 = 1
    · have e0 : ¬ (i = 0) := by omega
      rw [if_neg e0, if_pos hi] at r1
      cases r1
    · have e0 : ¬ (i + 1 = 0) := by omega
      have e1 : (i + 1) % 2 = 1 := by omega
      rw [if_neg e0, if_pos e1] at r2
      cases r2
  · intro j h0 hjk hj
    obtain ⟨-, hh0⟩ := hget j h0 hj
    rw [hh0, hh]
    exact transcript_take_prefix _ rounds j k hjk

/-- C11 as stated fails: `extractTag` on `<thought>hi</thought>` returns `hi`
with found, `hi` holds no `<thought>...</thought>` pair, and extracting again
from `hi` returns the empty string with not found, not `hi`. -/
theorem C11_extract_again_counterexample :
    extractTag "<thought>hi</thought>".toList "thought".toList = ("hi".toList, true)
    ∧ (¬ ∃ pre mid post, "hi".toList
          = pre ++ openTag "thought".toList ++ mid ++ closeTag "thought".toList ++ post)
    ∧ extractTag "hi".toList "thought".toList = ([], false)
    ∧ (extractTag "hi".toList "thought".toList).1 ≠ "hi".toList := by
  refine ⟨by decide, ?_, by decide, by decide⟩
  rw [← extractTag_found_iff]
  decide

/-- C11, amended: extracting again from extracted content that holds no pair
finds nothing.  For a tag name of letters and underscores and content `c`
returned by `extractTag text tag` with found, if `c` holds no `<tag>...</tag>`
pair then `extractTag c tag` is the empty string with not found; so it gives
`c` back exactly when `c` is empty.  The content `c` is already trimmed. -/
theorem C11_extract_again_finds_nothing (text tag c : Str) (htag : tagOK tag = true)
    (hfound : extractTag text tag = (c, true))
    (hnone : ¬ ∃ pre mid post, c = pre ++ openTag tag ++ mid ++ closeTag tag ++ post) :
    extractTag c tag = ([], false)
    ∧ ((extractTag c tag).1 = c ↔ c = [])
    ∧ trimSpace c = c := by
  have _ := htag
  have hnf : (extractTag c tag).2 = false := by
    cases hb : (extractTag c tag).2 with
    | false => rfl
    | true => exact absurd ((extractTag_found_iff c tag).1 hb) hnone
  have hres := extractTag_not_found c tag hnf
  refine ⟨hres, ?_, ?_⟩
  · rw [hres]
    exact ⟨fun h => h.symm, fun h => h.symm⟩
  · unfold extractTag at hfound
    cases hf : findSubmatch (openTag tag) (closeTag tag) text with
    | none => rw [hf] at hfound; cases hfound
    | some g =>
      rw [hf] at hfound
      have hc : trimSpace g = c := congrArg Prod.fst hfound
      rw [← hc, trimSpace_idem]

/-- C11, amended, at the text `<thought> hi </thought>`, whose content `hi`
holds no pair. -/
theorem C11_extract_again_finds_nothing_witness :
    (tagOK "thought".toList = true
      ∧ extractTag "<thought> hi </thought>".toList "thought".toList = ("hi".toList, true)
      ∧ ¬ ∃ pre mid post, "hi".toList
          = pre ++ openTag "thought".toList ++ mid ++ closeTag "thought".toList ++ post)
    ∧ extractTag "hi".toList "thought".toList = ([], false)
    ∧ ((extractTag "hi".toList "thought".toList).1 = "hi".toList ↔ "hi".toList = [])
    ∧ trimSpace "hi".toList = "hi".toList :=
  ⟨⟨by decide, by decide, by rw [← extractTag_found_iff]; decide⟩,
   C11_extract_again_finds_nothing "<thought> hi </thought>".toList "thought".toList
     "hi".toList (by decide) (by decide) (by rw [← extractTag_found_iff]; decide)⟩

end ReAct
